import Mathlib

/-!
# compton: shadow mask synthesis and shadow resource building

A shallow embedding of `src/backend/backend_common.c` (`solid_picture`,
`make_shadow`, `build_shadow`, `default_backend_render_shadow`) and of the
`conv` kernel record of `src/kernel.h`.

* C `double` values are kept abstract: `DoubleOps` packages the carrier and
  the three operations the code performs on doubles (multiplication, the
  literal `255.0`, the cast to `uint8_t`).  Theorems quantified over
  `DoubleOps` hold for every interpretation of these operations.
  `exactOps` interprets them over the rationals, with the cast truncating.
* Machine integers are `Nat`/`Int` with explicit wrap-around (`u16`, `u32`,
  `i32`, `usize`).
* The pixel buffer is write-only inside `make_shadow`, so the function is
  embedded as the list of memory operations it performs, in program order
  (`make_shadow_ops`), and the returned image is that list executed on the
  freshly allocated buffer (`make_shadow`).
* Server-side resources are explicit state (`XState`): the live resources,
  the XID counter, the outcomes of the coming allocation requests and the log
  of requests sent.
-/

namespace Compton

/-! ## Machine integers -/

/-- Conversion to `uint16_t`. -/
def u16 (n : Int) : Nat := (n % 65536).toNat

/-- Conversion to `uint` / `uint32_t`. -/
def u32 (n : Int) : Nat := (n % 4294967296).toNat

/-- Conversion of a 32-bit unsigned value to `int` (two's complement). -/
def i32 (n : Int) : Int := (n + 2147483648) % 4294967296 - 2147483648

/-- Conversion to `size_t` (64 bits). -/
def usize (n : Int) : Nat := (n % 18446744073709551616).toNat

/-! ## Doubles -/

/-- The operations on C `double` that the shadow code uses. -/
structure DoubleOps where
  /-- carrier of `double` values -/
  D : Type
  /-- `a * b` -/
  mul : D → D → D
  /-- the constant `255.0` (also the value of the `int` literal `255` once
  converted to `double`) -/
  c255 : D
  /-- the cast `(uint8_t)x` -/
  toU8 : D → Nat

/-- Exact arithmetic over the rationals; the cast to `uint8_t` truncates
(for a non-negative value, the floor) and keeps the low eight bits. -/
@[reducible] def exactOps : DoubleOps where
  D := ℚ
  mul := fun a b => a * b
  c255 := 255
  toU8 := fun q => (Int.toNat ⌊q⌋) % 256

/-! ## Kernel (`kernel.h`) -/

/-- The record `struct conv`: `int w, h; double *rsum; double data[]`.
The two arrays are given by their contents at each index. -/
structure conv (D : Type) where
  w : Int
  h : Int
  rsum : Nat → D
  data : Nat → D

/-! ## Memory operations and images -/

/-- One memory access of `make_shadow`: a read of `shadow_sum[i]`, a
single-byte write `data[i] = v`, or `memset(&data[start], v, n)`. -/
inductive MemOp where
  | load (i : Nat)
  | store (i : Nat) (v : Nat)
  | memset (start : Nat) (v : Nat) (n : Nat)
  deriving DecidableEq, Repr

/-- The byte, if any, that the operation writes at offset `i` of `data`. -/
def MemOp.writes (op : MemOp) (i : Nat) : Option Nat :=
  match op with
  | .load _ => none
  | .store j v => if i = j then some v else none
  | .memset start v n => if start ≤ i ∧ i < start + n then some v else none

/-- Effect of one operation on the buffer; `none` is a byte that has not
been written since allocation. -/
def MemOp.exec (op : MemOp) (buf : Nat → Option Nat) : Nat → Option Nat :=
  fun i => match op.writes i with
    | some v => some v
    | none => buf i

/-- Execute operations in order. -/
def run (ops : List MemOp) (buf : Nat → Option Nat) : Nat → Option Nat :=
  ops.foldl (fun b op => op.exec b) buf

/-- The fields of `xcb_image_t` that the code uses. -/
structure xcb_image_t where
  width : Nat
  height : Nat
  stride : Nat
  data : Nat → Option Nat

/-- Pixel in column `x` of row `y`. -/
def xcb_image_t.pixel (img : xcb_image_t) (x y : Nat) : Option Nat :=
  img.data (y * img.stride + x)

/-- Values of a C loop `for (uint i = lo; i < hi; i++)`. -/
def forRange (lo hi : Nat) : List Nat := List.range' lo (hi - lo)

/-! ## `make_shadow` -/

/-- `uint16_t r = (uint16_t)d / 2` with `d = (uint)kernel->w`. -/
def radius {D : Type} (kernel : conv D) : Nat := (u32 kernel.w % 65536) / 2

/-- `uint16_t swidth = width + r * 2` (and `sheight`, from `height`). -/
def ssize {D : Type} (kernel : conv D) (width : Nat) : Nat :=
  u16 ((width : Int) + (radius kernel : Int) * 2)

/-- Lines 96-102: the loop nest of the branch `width < r * 2 && height < r * 2`.
`snorm x y w h` stands for `sum_kernel_normalized(kernel, x, y, w, h)`. -/
def degenerate_ops (A : DoubleOps) (snorm : Int → Int → Nat → Nat → A.D)
    (d swidth sheight width height sstride : Nat) : List MemOp :=
  (forRange 0 sheight).flatMap fun y =>
    (forRange 0 swidth).flatMap fun x =>
      let sum := snorm (i32 ((d : Int) - x - 1)) (i32 ((d : Int) - y - 1)) width height
      [.store (u32 ((y : Int) * sstride + x)) (A.toU8 (A.mul sum A.c255))]

/-- Lines 113-127: the two loop nests of the branch `height < r * 2`. -/
def short_ops (A : DoubleOps) (snorm : Int → Int → Nat → Nat → A.D)
    (d r swidth sheight width height sstride : Nat) : List MemOp :=
  ((forRange 0 sheight).flatMap fun y =>
    (forRange 0 (r * 2)).flatMap fun x =>
      let sum := A.mul (snorm (i32 ((d : Int) - x - 1)) (i32 ((d : Int) - y - 1)) d height)
        A.c255
      [.store (u32 ((y : Int) * sstride + x)) (A.toU8 sum),
       .store (u32 ((y : Int) * sstride + swidth - x - 1)) (A.toU8 sum)])
  ++
  ((forRange 0 sheight).flatMap fun y =>
    let sum := A.mul (snorm 0 (i32 ((d : Int) - y - 1)) d height) A.c255
    [.memset (u32 ((y : Int) * sstride + (r : Int) * 2)) (A.toU8 sum)
      (usize ((width : Int) - 2 * (r : Int)))])

/-- Lines 132-148: the two loop nests of the branch `width < r * 2`. -/
def narrow_ops (A : DoubleOps) (snorm : Int → Int → Nat → Nat → A.D)
    (d r swidth sheight width height sstride : Nat) : List MemOp :=
  ((forRange 0 (r * 2)).flatMap fun y =>
    (forRange 0 swidth).flatMap fun x =>
      let sum := A.mul (snorm (i32 ((d : Int) - x - 1)) (i32 ((d : Int) - y - 1)) width d)
        A.c255
      [.store (u32 ((y : Int) * sstride + x)) (A.toU8 sum),
       .store (u32 (((sheight : Int) - y - 1) * sstride + x)) (A.toU8 sum)])
  ++
  ((forRange 0 swidth).flatMap fun x =>
    let sum := A.mul (snorm (i32 ((d : Int) - x - 1)) 0 width d) A.c255
    (forRange (r * 2) height).flatMap fun y =>
      [.store (u32 ((y : Int) * sstride + x)) (A.toU8 sum)])

/-- Lines 152-155, "Fill part 3": one `memset` of `width` bytes per row
`r ≤ y < height + r`, from `data + sstride * y + r`. -/
def part3_ops (A : DoubleOps) (opacity : A.D) (r width height sstride : Nat) : List MemOp :=
  (forRange r (height + r)).flatMap fun y =>
    [.memset (u32 ((sstride : Int) * y) + r) (A.toU8 (A.mul A.c255 opacity)) width]

/-- Lines 157-166, "Part 1": the four corners. -/
def part1_ops (A : DoubleOps) (shadow_sum : Nat → A.D) (opacity : A.D)
    (d r swidth sheight sstride : Nat) : List MemOp :=
  (forRange 0 (r * 2)).flatMap fun y =>
    (forRange 0 (r * 2)).flatMap fun x =>
      let i := u32 ((y : Int) * d + x)
      let tmpsum := A.mul (A.mul (shadow_sum i) opacity) A.c255
      [.load i,
       .store (u32 ((y : Int) * sstride + x)) (A.toU8 tmpsum),
       .store (u32 (((sheight : Int) - y - 1) * sstride + x)) (A.toU8 tmpsum),
       .store (u32 (((sheight : Int) - y - 1) * sstride + ((swidth : Int) - x - 1)))
         (A.toU8 tmpsum),
       .store (u32 ((y : Int) * sstride + ((swidth : Int) - x - 1))) (A.toU8 tmpsum)]

/-- Lines 168-174, "Part 2, top/bottom". -/
def part2_tb_ops (A : DoubleOps) (shadow_sum : Nat → A.D) (opacity : A.D)
    (d r sheight width sstride : Nat) : List MemOp :=
  (forRange 0 (r * 2)).flatMap fun y =>
    let i := u32 ((d : Int) * y + d - 1)
    let tmpsum := A.mul (A.mul (shadow_sum i) opacity) A.c255
    [.load i,
     .memset (u32 ((y : Int) * sstride + (r : Int) * 2)) (A.toU8 tmpsum)
       (usize ((width : Int) - (r : Int) * 2)),
     .memset (u32 (((sheight : Int) - y - 1) * sstride + (r : Int) * 2)) (A.toU8 tmpsum)
       (usize ((width : Int) - (r : Int) * 2))]

/-- Lines 176-183, "Part 2, left/right". -/
def part2_lr_ops (A : DoubleOps) (shadow_sum : Nat → A.D) (opacity : A.D)
    (d r swidth height sstride : Nat) : List MemOp :=
  (forRange 0 (r * 2)).flatMap fun x =>
    let i := u32 ((d : Int) * ((d : Int) - 1) + x)
    let tmpsum := A.mul (A.mul (shadow_sum i) opacity) A.c255
    .load i ::
    (forRange (r * 2) height).flatMap fun y =>
      [.store (u32 ((y : Int) * sstride + x)) (A.toU8 tmpsum),
       .store (u32 ((y : Int) * sstride + ((swidth : Int) - x - 1))) (A.toU8 tmpsum)]

/-- The memory operations of `make_shadow` once the image exists (lines
91-186), in program order; `sstride` is `ximage->stride`.  The `assert`
statements are preconditions and perform no operation. -/
def make_shadow_ops (A : DoubleOps) (kernel : conv A.D)
    (snorm : Int → Int → Nat → Nat → A.D) (opacity : A.D)
    (width height sstride : Nat) : List MemOp :=
  let shadow_sum := kernel.rsum
  let d : Nat := u32 kernel.w
  let r : Nat := radius kernel
  let swidth : Nat := ssize kernel width
  let sheight : Nat := ssize kernel height
  if width < r * 2 ∧ height < r * 2 then
    degenerate_ops A snorm d swidth sheight width height sstride
  else if height < r * 2 then
    short_ops A snorm d r swidth sheight width height sstride
  else if width < r * 2 then
    narrow_ops A snorm d r swidth sheight width height sstride
  else
    part3_ops A opacity r width height sstride
    ++ part1_ops A shadow_sum opacity d r swidth sheight sstride
    ++ part2_tb_ops A shadow_sum opacity d r sheight width sstride
    ++ part2_lr_ops A shadow_sum opacity d r swidth height sstride

/-- The function `make_shadow`.  `created` is the outcome of
`xcb_image_create_native(c, swidth, sheight, ...)`: `none` when it returns
`NULL`, `some sstride` when it returns an image with that row stride, whose
freshly allocated buffer holds no written byte. -/
def make_shadow (A : DoubleOps) (kernel : conv A.D)
    (snorm : Int → Int → Nat → Nat → A.D) (opacity : A.D)
    (width height : Nat) (created : Option Nat) : Option xcb_image_t :=
  match created with
  | none => none
  | some sstride =>
    some { width := ssize kernel width
           height := ssize kernel height
           stride := sstride
           data := run (make_shadow_ops A kernel snorm opacity width height sstride)
                     (fun _ => none) }

/-! ## Server-side resources and `build_shadow` -/

/-- The standard picture formats of `xcb_pict_standard_t`. -/
inductive PictStandard where
  | ARGB_32 | RGB_24 | A_8 | A_4 | A_1
  deriving DecidableEq, Repr

/-- A live server-side resource, with its XID. -/
inductive Res where
  | pixmap (id depth width height : Nat)
  | picture (id : Nat) (standard : PictStandard) (pixmap : Nat)
  | gc (id : Nat) (drawable : Nat)
  deriving DecidableEq, Repr

/-- The XID of a resource. -/
def Res.id : Res → Nat
  | .pixmap id _ _ _ => id
  | .picture id _ _ => id
  | .gc id _ => id

def Res.isPixmap : Res → Bool
  | .pixmap _ _ _ _ => true
  | _ => false

def Res.isPicture : Res → Bool
  | .picture _ _ _ => true
  | _ => false

def Res.isGc : Res → Bool
  | .gc _ _ => true
  | _ => false

/-- A request sent over the connection. -/
inductive Req where
  | create_pixmap (depth : Nat)
  | create_picture (standard : PictStandard)
  | create_gc
  | put_image
  | composite
  | fill_rectangles
  | free_pixmap (id : Nat)
  | free_picture (id : Nat)
  | free_gc (id : Nat)
  deriving DecidableEq, Repr

/-- What the code can observe and change through `xcb_connection_t *c`, and
the client-side images: the live server-side resources, the last XID handed
out by `xcb_generate_id`, the outcomes of the coming fallible server requests
(`true`: success; past the end of the list every request succeeds), the
requests sent so far (latest first) and the number of live `xcb_image_t`. -/
structure XState where
  live : List Res
  last_id : Nat
  outcomes : List Bool
  requests : List Req
  images : Nat
  deriving DecidableEq, Repr

/-- The call `xcb_generate_id(c)`: a fresh non-zero XID. -/
def xcb_generate_id (st : XState) : Nat × XState :=
  (st.last_id + 1, { st with last_id := st.last_id + 1 })

/-- Outcome of the next fallible server request. -/
def next_outcome (st : XState) : Bool × XState :=
  (st.outcomes.headD true, { st with outcomes := st.outcomes.tail })

/-- Modelled from the spec: `x_create_pixmap` (x.c is not part of the sources)
allocates a pixel buffer of the given depth and size and returns its handle,
or creates nothing and returns the sentinel `XCB_NONE` (0) on failure. -/
def x_create_pixmap (st : XState) (depth : Nat) (_drawable : Nat) (width height : Nat) :
    Nat × XState :=
  let (id, st) := xcb_generate_id st
  let (ok, st) := next_outcome st
  let st := { st with requests := .create_pixmap depth :: st.requests }
  if ok then (id, { st with live := .pixmap id depth width height :: st.live })
  else (0, st)

/-- Modelled from the spec: `x_create_picture_with_standard_and_pixmap` (x.c is
not part of the sources) wraps a pixmap as a picture of a standard format and
returns its handle, or creates nothing and returns `XCB_NONE` (0) on failure. -/
def x_create_picture_with_standard_and_pixmap (st : XState) (standard : PictStandard)
    (pixmap : Nat) : Nat × XState :=
  let (id, st) := xcb_generate_id st
  let (ok, st) := next_outcome st
  let st := { st with requests := .create_picture standard :: st.requests }
  if ok then (id, { st with live := .picture id standard pixmap :: st.live })
  else (0, st)

/-- The request `xcb_create_gc(c, gc, drawable, 0, NULL)`; it is not checked by
the caller and, like every allocation, may fail on the server. -/
def xcb_create_gc (st : XState) (gc drawable : Nat) : XState :=
  let (ok, st) := next_outcome st
  let st := { st with requests := .create_gc :: st.requests }
  if ok then { st with live := .gc gc drawable :: st.live } else st

/-- The live resources once the resource of kind `k` with XID `id`, if any, is
freed. -/
def dropRes (k : Res → Bool) (id : Nat) (live : List Res) : List Res :=
  live.filter (fun res => !(k res && res.id == id))

/-- The request `xcb_free_pixmap(c, pixmap)`. -/
def xcb_free_pixmap (st : XState) (pixmap : Nat) : XState :=
  { st with live := dropRes Res.isPixmap pixmap st.live
            requests := .free_pixmap pixmap :: st.requests }

/-- The request `xcb_render_free_picture(c, picture)`. -/
def xcb_render_free_picture (st : XState) (picture : Nat) : XState :=
  { st with live := dropRes Res.isPicture picture st.live
            requests := .free_picture picture :: st.requests }

/-- The request `xcb_free_gc(c, gc)`. -/
def xcb_free_gc (st : XState) (gc : Nat) : XState :=
  { st with live := dropRes Res.isGc gc st.live
            requests := .free_gc gc :: st.requests }

/-- The request `xcb_image_put`: uploads the image; no resource is created. -/
def xcb_image_put (st : XState) : XState :=
  { st with requests := .put_image :: st.requests }

/-- The request `xcb_render_composite`: no resource is created. -/
def xcb_render_composite (st : XState) : XState :=
  { st with requests := .composite :: st.requests }

/-- The call `xcb_image_destroy(image)`. -/
def xcb_image_destroy (st : XState) : XState :=
  { st with images := st.images - 1 }

/-- Result of `build_shadow`: the returned `bool`, the state it leaves, and
the values it stored to `*pixmap` and `*pict` (`none`: not written). -/
structure BuildResult where
  ret : Bool
  st : XState
  pixmap : Option Nat
  pict : Option Nat
  deriving DecidableEq, Repr

/-- The label `shadow_picture_err` of `build_shadow` (lines 241-261): frees
whatever is non-`NULL` / non-`XCB_NONE` and returns `false`. -/
def shadow_picture_err (st : XState) (shadow_image : Option xcb_image_t)
    (shadow_pixmap shadow_pixmap_argb shadow_picture shadow_picture_argb gc : Nat) :
    BuildResult :=
  let st := if shadow_image.isSome then xcb_image_destroy st else st
  let st := if shadow_pixmap ≠ 0 then xcb_free_pixmap st shadow_pixmap else st
  let st := if shadow_pixmap_argb ≠ 0 then xcb_free_pixmap st shadow_pixmap_argb else st
  let st := if shadow_picture ≠ 0 then xcb_render_free_picture st shadow_picture else st
  let st := if shadow_picture_argb ≠ 0 then xcb_render_free_picture st shadow_picture_argb
            else st
  let st := if gc ≠ 0 then xcb_free_gc st gc else st
  { ret := false, st := st, pixmap := none, pict := none }

/-- The function `build_shadow` (lines 191-262).  `d` is the drawable,
`created` the outcome of the image allocation inside `make_shadow`. -/
def build_shadow (A : DoubleOps) (st : XState) (d : Nat) (opacity : A.D)
    (width height : Nat) (kernel : conv A.D) (snorm : Int → Int → Nat → Nat → A.D)
    (created : Option Nat) (_shadow_pixel : Nat) : BuildResult :=
  match make_shadow A kernel snorm opacity width height created with
  | none => { ret := false, st := st, pixmap := none, pict := none }
  | some shadow_image =>
    let st := { st with images := st.images + 1 }
    let (shadow_pixmap, st) := x_create_pixmap st 8 d shadow_image.width shadow_image.height
    let (shadow_pixmap_argb, st) :=
      x_create_pixmap st 32 d shadow_image.width shadow_image.height
    if shadow_pixmap = 0 ∨ shadow_pixmap_argb = 0 then
      shadow_picture_err st (some shadow_image) shadow_pixmap shadow_pixmap_argb 0 0 0
    else
      let (shadow_picture, st) :=
        x_create_picture_with_standard_and_pixmap st .A_8 shadow_pixmap
      let (shadow_picture_argb, st) :=
        x_create_picture_with_standard_and_pixmap st .ARGB_32 shadow_pixmap_argb
      if shadow_picture = 0 ∨ shadow_picture_argb = 0 then
        shadow_picture_err st (some shadow_image) shadow_pixmap shadow_pixmap_argb
          shadow_picture shadow_picture_argb 0
      else
        let (gc, st) := xcb_generate_id st
        let st := xcb_create_gc st gc shadow_pixmap
        let st := xcb_image_put st
        let st := xcb_render_composite st
        let st := xcb_free_gc st gc
        let st := xcb_image_destroy st
        let st := xcb_free_pixmap st shadow_pixmap
        let st := xcb_render_free_picture st shadow_picture
        { ret := true, st := st, pixmap := some shadow_pixmap_argb,
          pict := some shadow_picture_argb }

/-- XIDs are unique: every live resource has an XID that `xcb_generate_id`
has already handed out. -/
def XState.fresh (st : XState) : Prop := ∀ res ∈ st.live, res.id ≤ st.last_id

/-! ## `solid_picture` and `default_backend_render_shadow` -/

/-- The request `xcb_render_fill_rectangles`: no resource is created. -/
def xcb_render_fill_rectangles (st : XState) : XState :=
  { st with requests := .fill_rectangles :: st.requests }

/-- The function `solid_picture` (lines 19-55); `d` is the drawable.  The
components `a, r, g, b` only decide the colour `col` written into the single
pixel; they play no part in which resources exist and are left out. -/
def solid_picture (st : XState) (d : Nat) (argb : Bool) : Nat × XState :=
  let (pixmap, st) := x_create_pixmap st (if argb then 32 else 8) d 1 1
  if pixmap = 0 then (0, st)
  else
    let (picture, st) :=
      x_create_picture_with_standard_and_pixmap st (if argb then .ARGB_32 else .A_8) pixmap
    if picture = 0 then (0, xcb_free_pixmap st pixmap)
    else
      let st := xcb_render_fill_rectangles st
      let st := xcb_free_pixmap st pixmap
      (picture, st)

/-- Result of `default_backend_render_shadow`: the returned pointer (0 is
`NULL`), the state it leaves, and the pixmap it passed to
`backend_data->ops->bind_pixmap`. -/
structure RenderResult where
  ret : Nat
  st : XState
  bound : Nat
  deriving DecidableEq, Repr

/-- The function `default_backend_render_shadow` (lines 264-282).  `root` is
`backend_data->root`, `bind_pixmap` the backend's bind operation applied to
the pixmap it receives (its other arguments are fixed), `created` the outcome
of the image allocation inside `make_shadow`.  The two `assert`s are
preconditions; `(uint16_t)width` and `(uint16_t)height` narrow the sizes.  The
tint components `r, g, b` are left out as in `solid_picture`. -/
def default_backend_render_shadow (A : DoubleOps) (st : XState) (root : Nat)
    (bind_pixmap : Nat → Nat) (width height : Nat) (kernel : conv A.D)
    (snorm : Int → Int → Nat → Nat → A.D) (created : Option Nat) (a : A.D) : RenderResult :=
  let (shadow_pixel, st) := solid_picture st root true
  let res := build_shadow A st root a (u16 width) (u16 height) kernel snorm created shadow_pixel
  -- `shadow` and `pict` start as `XCB_NONE` and hold what `build_shadow` stored
  let shadow := res.pixmap.getD 0
  let pict := res.pict.getD 0
  let ret := bind_pixmap shadow
  let st := xcb_render_free_picture res.st pict
  { ret := ret, st := st, bound := shadow }

/-- A connection on which the first allocation fails and every later one
succeeds: the tint pixmap when `solid_picture` or
`default_backend_render_shadow` is called on it, the alpha pixmap when
`build_shadow` is. -/
def st_first_fail : XState :=
  { live := [.pixmap 3 24 10 10], last_id := 7, outcomes := [false], requests := [],
    images := 0 }

/-- A connection on which the third allocation fails and every other one
succeeds: the alpha picture when `build_shadow` is called on it, the alpha
pixmap of `build_shadow` when `default_backend_render_shadow` is. -/
def st_picture_fail : XState :=
  { live := [.pixmap 3 24 10 10], last_id := 7, outcomes := [true, true, false],
    requests := [], images := 0 }

/-- A backend bind operation that wraps any pixmap it is given. -/
def bind_any : Nat → Nat := fun pixmap => pixmap + 1000

/-- A connection with one live pixmap on which every request succeeds. -/
def st_all_ok : XState :=
  { live := [.pixmap 3 24 10 10], last_id := 7, outcomes := [], requests := [], images := 0 }

/-- The same connection, on which the second allocation (the ARGB pixmap of
`build_shadow`) fails. -/
def st_argb_fail : XState :=
  { live := [.pixmap 3 24 10 10], last_id := 7, outcomes := [true, false], requests := [],
    images := 0 }

/-- A concrete 3x3 kernel (`r = 1`) with binomial weights `[1 2 1; 2 4 2; 1 2 1] / 16`
and its prefix sums `rsum[y*3+x]`. -/
def tent3 : conv ℚ where
  w := 3
  h := 3
  rsum := fun i => (([1, 3, 4, 3, 9, 12, 4, 12, 16].getD i 0 : Nat) : ℚ) / 16
  data := fun i => (([1, 2, 1, 2, 4, 2, 1, 2, 1].getD i 0 : Nat) : ℚ) / 16

/-- A 5x5 kernel record (`r = 2`) with constant tables. -/
def flat5 : conv ℚ where
  w := 5
  h := 5
  rsum := fun _ => 1 / 25
  data := fun _ => 1 / 25

/-- A stand-in for `sum_kernel_normalized` where its value plays no role. -/
def snorm0 : Int → Int → Nat → Nat → ℚ := fun _ _ _ _ => 0

/-- A uniform 11x11 kernel (`r = 5`): every weight is `1/121`, and
`rsum[y*11+x] = (x+1)(y+1)/121`. -/
def flat11 : conv ℚ where
  w := 11
  h := 11
  rsum := fun i => (((i % 11 + 1) * (i / 11 + 1) : Nat) : ℚ) / 121
  data := fun _ => 1 / 121

/-- The rectangle sum `S` in the words of the spec: the sum of the weights
`k[j][i] = data[j*d + i]` over the kernel cells `(i, j)` of `[0, d) x [0, d)`
with `x0 ≤ i < x0 + width` and `y0 ≤ j < y0 + height`, for a rectangle whose
top-left corner `(x0, y0)` may be negative. -/
def spec_clipped_sum (kernel : conv ℚ) (d : Nat) (x0 y0 : Int) (width height : Nat) : ℚ :=
  ∑ j in Finset.range d, ∑ i in Finset.range d,
    if x0 ≤ (i : Int) ∧ (i : Int) < x0 + width ∧ y0 ≤ (j : Int) ∧ (j : Int) < y0 + height
    then kernel.data (j * d + i) else 0

/-- The kernel of the refinement claim, in exact arithmetic, with side `d`:
the weights sum to 1, are symmetric under `i → d-1-i` and under `j → d-1-j`,
and `rsum[y*d+x]` is the exact sum of the weights over columns `0..x` and rows
`0..y`. -/
structure ExactKernel (kernel : conv ℚ) (d : Nat) : Prop where
  total : ∑ j in Finset.range d, ∑ i in Finset.range d, kernel.data (j * d + i) = 1
  sym_col : ∀ i j, i < d → j < d → kernel.data (j * d + (d - 1 - i)) = kernel.data (j * d + i)
  sym_row : ∀ i j, i < d → j < d → kernel.data ((d - 1 - j) * d + i) = kernel.data (j * d + i)
  prefix_sums : ∀ x y, x < d → y < d →
    kernel.rsum (y * d + x) =
      ∑ j in Finset.range (y + 1), ∑ i in Finset.range (x + 1), kernel.data (j * d + i)

/-- A rectangle-sum oracle that is not mirror-symmetric. -/
def snorm_skew : Int → Int → Nat → Nat → ℚ := fun x y _ _ => if x ≤ 0 ∧ y ≤ 1 then 1 / 2 else 0

/-- An access stays inside its table: a read of `shadow_sum` below `d * d`; a
single-byte write at some row below `H` and column below `W` of the canvas; a
fill that starts at some row below `H` and covers columns `[col, col + n)`
within `[0, W)`, `n` being the length as `memset` receives it (a negative
`int` length would arrive as a huge `size_t`). -/
def MemOp.inBounds (d W H s : Nat) : MemOp → Prop
  | .load i => i < d * d
  | .store i _ => ∃ row col, i = row * s + col ∧ row < H ∧ col < W
  | .memset start _ n => ∃ row col, start = row * s + col ∧ row < H ∧ col + n ≤ W

/-- Well-formed call of `make_shadow`: the kernel side is `2r+1` (the code
asserts it odd and positive), the canvas `(width+2r) x (height+2r)` fits the
16-bit image size, and the image that `xcb_image_create_native` returned has
a row stride of at least the canvas width and a byte size
`height * stride` that fits its 32-bit `size` field. -/
structure Fits {D : Type} (kernel : conv D) (r width height sstride : Nat) : Prop where
  side : kernel.w = 2 * (r : Int) + 1
  wfit : width + 2 * r ≤ 65535
  hfit : height + 2 * r ≤ 65535
  stride_ge : width + 2 * r ≤ sstride
  size_fit : (height + 2 * r) * sstride < 4294967296

/-! ## Integer conversions without wrap-around -/

theorem u32_natCast {n : Nat} (h : n < 4294967296) : u32 (n : Int) = n := by
  unfold u32; omega

theorem u16_natCast {n : Nat} (h : n < 65536) : u16 (n : Int) = n := by
  unfold u16; omega

theorem i32_of_bounds {n : Int} (h1 : -2147483648 ≤ n) (h2 : n < 2147483648) : i32 n = n := by
  unfold i32; omega

theorem usize_sub {a b : Nat} (h : b ≤ a) (ha : a < 65536) :
    usize ((a : Int) - (b : Int)) = a - b := by
  unfold usize; omega

/-- Side `2r+1` that fits the canvas bound: `d`, `r` are read without loss. -/
theorem u32_side {D : Type} {kernel : conv D} {r : Nat} (hd : kernel.w = 2 * (r : Int) + 1)
    (hr : 2 * r ≤ 65535) : u32 kernel.w = 2 * r + 1 := by
  rw [hd]; unfold u32; omega

theorem radius_eq {D : Type} {kernel : conv D} {r : Nat} (hd : kernel.w = 2 * (r : Int) + 1)
    (hr : 2 * r ≤ 65535) : radius kernel = r := by
  unfold radius; rw [u32_side hd hr]; omega

theorem ssize_eq {D : Type} {kernel : conv D} {r width : Nat}
    (hd : kernel.w = 2 * (r : Int) + 1) (hW : width + 2 * r ≤ 65535) :
    ssize kernel width = width + 2 * r := by
  unfold ssize; rw [radius_eq hd (by omega)]; unfold u16; omega

/-! ## Executing memory operations -/

theorem mem_forRange {lo hi m : Nat} : m ∈ forRange lo hi ↔ lo ≤ m ∧ m < hi := by
  simp [forRange]; omega

theorem run_nil (buf : Nat → Option Nat) : run [] buf = buf := rfl

theorem run_cons (op : MemOp) (ops : List MemOp) (buf : Nat → Option Nat) :
    run (op :: ops) buf = run ops (op.exec buf) := rfl

theorem run_append (pre suf : List MemOp) (buf : Nat → Option Nat) :
    run (pre ++ suf) buf = run suf (run pre buf) := by
  simp [run, List.foldl_append]

/-- A byte no operation writes keeps its content. -/
theorem run_untouched (ops : List MemOp) (buf : Nat → Option Nat) (i : Nat)
    (h : ∀ op ∈ ops, op.writes i = none) : run ops buf i = buf i := by
  induction ops generalizing buf with
  | nil => rfl
  | cons op ops ih =>
    rw [run_cons, ih _ (fun o ho => h o (List.mem_cons_of_mem _ ho))]
    simp [MemOp.exec, h op (List.mem_cons_self _ _)]

/-- If the byte holds `v` or some operation writes `v` there, and every
operation writing there writes `v`, the byte ends up holding `v`. -/
theorem run_agree (ops : List MemOp) (buf : Nat → Option Nat) (i v : Nat)
    (hall : ∀ op ∈ ops, ∀ u, op.writes i = some u → u = v)
    (hex : buf i = some v ∨ ∃ op ∈ ops, op.writes i = some v) :
    run ops buf i = some v := by
  induction ops generalizing buf with
  | nil =>
    rcases hex with h | ⟨op, hop, _⟩
    · exact h
    · cases hop
  | cons op ops ih =>
    rw [run_cons]
    apply ih _ (fun o ho => hall o (List.mem_cons_of_mem _ ho))
    cases hw : op.writes i with
    | some u =>
      left
      have := hall op (List.mem_cons_self _ _) u hw
      simp [MemOp.exec, hw, this]
    | none =>
      rcases hex with h | ⟨o, ho, hov⟩
      · left; simp [MemOp.exec, hw, h]
      · rcases List.mem_cons.mp ho with rfl | ho
        · rw [hw] at hov; cases hov
        · right; exact ⟨o, ho, hov⟩

/-- The value of a byte is decided by the operations after any prefix, as
soon as one of them writes it and all that write it agree. -/
theorem run_last (pre suf : List MemOp) (buf : Nat → Option Nat) (i v : Nat)
    (hex : ∃ op ∈ suf, op.writes i = some v)
    (hall : ∀ op ∈ suf, ∀ u, op.writes i = some u → u = v) :
    run (pre ++ suf) buf i = some v := by
  rw [run_append]; exact run_agree suf _ i v hall (Or.inr hex)

/-! ## Row and column of a byte offset -/

theorem row_col_unique {s a b c d : Nat} (hb : b < s) (hd : d < s)
    (h : a * s + b = c * s + d) : a = c ∧ b = d := by
  have h1 : (a * s + b) / s = a := by
    rw [Nat.mul_comm, Nat.mul_add_div (by omega), Nat.div_eq_of_lt hb]; rfl
  have h2 : (c * s + d) / s = c := by
    rw [Nat.mul_comm, Nat.mul_add_div (by omega), Nat.div_eq_of_lt hd]; rfl
  have hac : a = c := by rw [← h1, ← h2, h]
  subst hac
  exact ⟨rfl, by omega⟩

theorem writes_load (j i : Nat) : (MemOp.load j).writes i = none := rfl

/-- A single-byte write at row `a`, column `b` hits pixel `(x, y)` exactly
when `a = y` and `b = x`. -/
theorem writes_store_pix {s a b x y v : Nat} (hb : b < s) (hx : x < s) :
    (MemOp.store (a * s + b) v).writes (y * s + x) =
      if a = y ∧ b = x then some v else none := by
  simp only [MemOp.writes]
  by_cases h : a = y ∧ b = x
  · rw [if_pos h, if_pos (show y * s + x = a * s + b by rw [h.1, h.2])]
  · rw [if_neg h, if_neg]
    intro he
    exact h (by have := row_col_unique hx hb he; exact ⟨this.1.symm, this.2.symm⟩)

/-- A fill of `n` bytes from row `a`, column `b` that stays inside the row
hits pixel `(x, y)` exactly when `a = y` and `b ≤ x < b + n`. -/
theorem writes_memset_pix {s a b n x y v : Nat} (hb : b + n ≤ s) (hx : x < s) :
    (MemOp.memset (a * s + b) v n).writes (y * s + x) =
      if a = y ∧ b ≤ x ∧ x < b + n then some v else none := by
  simp only [MemOp.writes]
  by_cases h : a = y ∧ b ≤ x ∧ x < b + n
  · rw [if_pos h, if_pos (show a * s + b ≤ y * s + x ∧ y * s + x < a * s + b + n by
      rw [h.1]; omega)]
  · rw [if_neg h, if_neg]
    rintro ⟨h1, h2⟩
    have hay : a = y := by
      rcases Nat.lt_trichotomy a y with hlt | heq | hgt
      · have : (a + 1) * s ≤ y * s := Nat.mul_le_mul_right s hlt
        rw [Nat.add_mul] at this; omega
      · exact heq
      · have : (y + 1) * s ≤ a * s := Nat.mul_le_mul_right s hgt
        rw [Nat.add_mul] at this; omega
    subst hay
    exact h ⟨rfl, by omega, by omega⟩

/-- Offsets of canvas pixels fit 32 bits. -/
theorem offset_lt {s H y x : Nat} (hy : y < H) (hx : x ≤ s) (hsz : H * s < 4294967296) :
    y * s + x < 4294967296 := by
  have : (y + 1) * s ≤ H * s := Nat.mul_le_mul_right s hy
  rw [Nat.add_mul] at this; omega

theorem u32_offset {s H y x : Nat} (hy : y < H) (hx : x ≤ s) (hsz : H * s < 4294967296) :
    u32 ((y : Int) * s + x) = y * s + x := by
  have h := u32_natCast (offset_lt hy hx hsz)
  push_cast at h
  exact h

/-- Offset `a * stride + b` computed in 32 bits, for a row `a` and a column
`b` of the canvas. -/
theorem u32_row_col {s H : Nat} {a b : Int} (row col : Nat) (ha : a = (row : Int))
    (hb : b = (col : Int)) (hrow : row < H) (hcol : col ≤ s) (hsz : H * s < 4294967296) :
    u32 (a * (s : Int) + b) = row * s + col := by
  subst ha hb; exact u32_offset hrow hcol hsz

/-- A single-byte write that hits pixel `(x, y)` is the write at that row and
column. -/
theorem store_hit {s H : Nat} {a b : Int} (row col : Nat) {x y v u : Nat}
    (ha : a = (row : Int)) (hb : b = (col : Int)) (hrow : row < H) (hcol : col < s)
    (hx : x < s) (hsz : H * s < 4294967296)
    (hu : (MemOp.store (u32 (a * (s : Int) + b)) v).writes (y * s + x) = some u) :
    row = y ∧ col = x ∧ u = v := by
  rw [u32_row_col row col ha hb hrow (Nat.le_of_lt hcol) hsz, writes_store_pix hcol hx] at hu
  split at hu
  · rename_i h
    exact ⟨h.1, h.2, (Option.some.inj hu).symm⟩
  · cases hu

theorem store_writes {s H : Nat} {a b : Int} (row col : Nat) (v : Nat)
    (ha : a = (row : Int)) (hb : b = (col : Int)) (hrow : row < H) (hcol : col < s)
    (hsz : H * s < 4294967296) :
    (MemOp.store (u32 (a * (s : Int) + b)) v).writes (row * s + col) = some v := by
  rw [u32_row_col row col ha hb hrow (Nat.le_of_lt hcol) hsz, writes_store_pix hcol hcol,
    if_pos ⟨rfl, rfl⟩]

/-- A fill inside one row that hits pixel `(x, y)` is a fill of that row
whose columns contain `x`. -/
theorem memset_hit {s H : Nat} {a b : Int} (row col n : Nat) {len x y v u : Nat}
    (ha : a = (row : Int)) (hb : b = (col : Int)) (hlen : len = n) (hrow : row < H)
    (hfit : col + n ≤ s) (hx : x < s) (hsz : H * s < 4294967296)
    (hu : (MemOp.memset (u32 (a * (s : Int) + b)) v len).writes (y * s + x) = some u) :
    row = y ∧ col ≤ x ∧ x < col + n ∧ u = v := by
  subst hlen
  rw [u32_row_col row col ha hb hrow (by omega) hsz, writes_memset_pix hfit hx] at hu
  split at hu
  · rename_i h
    exact ⟨h.1, h.2.1, h.2.2, (Option.some.inj hu).symm⟩
  · cases hu

theorem memset_writes {s H : Nat} {a b : Int} (row col n : Nat) {len : Nat} (x v : Nat)
    (ha : a = (row : Int)) (hb : b = (col : Int)) (hlen : len = n) (hrow : row < H)
    (hfit : col + n ≤ s) (hx1 : col ≤ x) (hx2 : x < col + n) (hsz : H * s < 4294967296) :
    (MemOp.memset (u32 (a * (s : Int) + b)) v len).writes (row * s + x) = some v := by
  subst hlen
  rw [u32_row_col row col ha hb hrow (by omega) hsz, writes_memset_pix hfit (by omega),
    if_pos ⟨rfl, hx1, hx2⟩]

/-! ## The regular regime, region by region

Throughout, `W = width + 2r` and `H = height + 2r` are the canvas size, the
stride is at least `W`, and `(x, y)` is a pixel with `x` below the stride. -/

/-- Part 3 writes only `(uint8_t)(255 * opacity)`, and only inside
`[r, width+r) x [r, height+r)`. -/
theorem part3_hit (A : DoubleOps) (opacity : A.D) {r width height s : Nat}
    (hs : width + 2 * r ≤ s) (hsz : (height + 2 * r) * s < 4294967296)
    {x y : Nat} (hx : x < s) {op : MemOp} (hop : op ∈ part3_ops A opacity r width height s)
    {u : Nat} (hu : op.writes (y * s + x) = some u) :
    (r ≤ y ∧ y < height + r) ∧ (r ≤ x ∧ x < width + r) ∧
      u = A.toU8 (A.mul A.c255 opacity) := by
  simp only [part3_ops, List.mem_flatMap, mem_forRange, List.mem_singleton] at hop
  obtain ⟨y', hy', rfl⟩ := hop
  have e : u32 ((s : Int) * (y' : Int)) = y' * s := by
    have h := u32_natCast (offset_lt (show y' < height + 2 * r by omega) (Nat.zero_le s) hsz)
    push_cast at h
    rw [Int.mul_comm]; simpa using h
  rw [e, writes_memset_pix (by omega) hx] at hu
  split at hu
  · rename_i h
    exact ⟨by omega, by omega, (Option.some.inj hu).symm⟩
  · cases hu

theorem part3_writes (A : DoubleOps) (opacity : A.D) {r width height s : Nat}
    (hs : width + 2 * r ≤ s) (hsz : (height + 2 * r) * s < 4294967296)
    {x y : Nat} (hy : r ≤ y ∧ y < height + r) (hx : r ≤ x ∧ x < width + r) :
    ∃ op ∈ part3_ops A opacity r width height s,
      op.writes (y * s + x) = some (A.toU8 (A.mul A.c255 opacity)) := by
  have e : u32 ((s : Int) * (y : Int)) = y * s := by
    have h := u32_natCast (offset_lt (show y < height + 2 * r by omega) (Nat.zero_le s) hsz)
    push_cast at h
    rw [Int.mul_comm]; simpa using h
  refine ⟨_, List.mem_flatMap.mpr ⟨y, mem_forRange.mpr hy, List.mem_singleton.mpr rfl⟩, ?_⟩
  rw [e, writes_memset_pix (by omega) (by omega), if_pos ⟨rfl, hx.1, by omega⟩]

/-- Index `y * d + x` of `shadow_sum`, computed in 32 bits. -/
theorem u32_rsum_index {r x y : Nat} (hr : 2 * r ≤ 65535) (hx : x < 2 * r) (hy : y < 2 * r) :
    u32 ((y : Int) * ((2 * r + 1 : Nat) : Int) + (x : Int)) = y * (2 * r + 1) + x :=
  u32_row_col (H := 65536) y x rfl rfl (by omega) (by omega) (by omega)

/-- Part 1 writes, at a pixel it reaches, the corner value of the pixel's
mirror image in the top-left corner. -/
theorem part1_hit (A : DoubleOps) (rsum : Nat → A.D) (opacity : A.D)
    {r width height s : Nat} (hW : width + 2 * r ≤ 65535)
    (hs : width + 2 * r ≤ s) (hsz : (height + 2 * r) * s < 4294967296)
    {x y : Nat} (hx : x < s) {op : MemOp}
    (hop : op ∈ part1_ops A rsum opacity (2 * r + 1) r (width + 2 * r) (height + 2 * r) s)
    {u : Nat} (hu : op.writes (y * s + x) = some u) :
    ∃ x' y', x' < 2 * r ∧ y' < 2 * r ∧ (x = x' ∨ x = width + 2 * r - 1 - x') ∧
      (y = y' ∨ y = height + 2 * r - 1 - y') ∧
      u = A.toU8 (A.mul (A.mul (rsum (y' * (2 * r + 1) + x')) opacity) A.c255) := by
  simp only [part1_ops, List.mem_flatMap, mem_forRange, List.mem_cons, List.mem_singleton,
    List.not_mem_nil, or_false] at hop
  obtain ⟨y', hy', x', hx', hop⟩ := hop
  rw [u32_rsum_index (by omega) (by omega) (by omega)] at hop
  refine ⟨x', y', by omega, by omega, ?_⟩
  rcases hop with rfl | rfl | rfl | rfl | rfl
  · cases hu
  · obtain ⟨h1, h2, h3⟩ := store_hit y' x' rfl rfl (by omega) (by omega) hx hsz hu
    exact ⟨Or.inl h2.symm, Or.inl h1.symm, h3⟩
  · obtain ⟨h1, h2, h3⟩ := store_hit (height + 2 * r - 1 - y') x' (by omega) rfl (by omega)
      (by omega) hx hsz hu
    exact ⟨Or.inl h2.symm, Or.inr h1.symm, h3⟩
  · obtain ⟨h1, h2, h3⟩ := store_hit (height + 2 * r - 1 - y') (width + 2 * r - 1 - x')
      (by omega) (by omega) (by omega) (by omega) hx hsz hu
    exact ⟨Or.inr h2.symm, Or.inr h1.symm, h3⟩
  · obtain ⟨h1, h2, h3⟩ := store_hit y' (width + 2 * r - 1 - x') rfl (by omega) (by omega)
      (by omega) hx hsz hu
    exact ⟨Or.inr h2.symm, Or.inl h1.symm, h3⟩

/-- Part 1 writes the corner value of `(x, y)` at `(x, y)` and at its three
mirror images. -/
theorem part1_writes (A : DoubleOps) (rsum : Nat → A.D) (opacity : A.D)
    {r width height s : Nat} (hW : width + 2 * r ≤ 65535)
    (hs : width + 2 * r ≤ s) (hsz : (height + 2 * r) * s < 4294967296)
    {x y : Nat} (hx : x < 2 * r) (hy : y < 2 * r) (px py : Nat)
    (hpx : px = x ∨ px = width + 2 * r - 1 - x) (hpy : py = y ∨ py = height + 2 * r - 1 - y) :
    ∃ op ∈ part1_ops A rsum opacity (2 * r + 1) r (width + 2 * r) (height + 2 * r) s,
      op.writes (py * s + px) =
        some (A.toU8 (A.mul (A.mul (rsum (y * (2 * r + 1) + x)) opacity) A.c255)) := by
  have hmem : ∀ op, op ∈ [MemOp.load (u32 ((y : Int) * ((2 * r + 1 : Nat) : Int) + x)),
      .store (u32 ((y : Int) * s + x))
        (A.toU8 (A.mul (A.mul (rsum (u32 ((y : Int) * ((2 * r + 1 : Nat) : Int) + x))) opacity)
          A.c255)),
      .store (u32 ((((height + 2 * r : Nat) : Int) - y - 1) * s + x))
        (A.toU8 (A.mul (A.mul (rsum (u32 ((y : Int) * ((2 * r + 1 : Nat) : Int) + x))) opacity)
          A.c255)),
      .store (u32 ((((height + 2 * r : Nat) : Int) - y - 1) * s +
          (((width + 2 * r : Nat) : Int) - x - 1)))
        (A.toU8 (A.mul (A.mul (rsum (u32 ((y : Int) * ((2 * r + 1 : Nat) : Int) + x))) opacity)
          A.c255)),
      .store (u32 ((y : Int) * s + (((width + 2 * r : Nat) : Int) - x - 1)))
        (A.toU8 (A.mul (A.mul (rsum (u32 ((y : Int) * ((2 * r + 1 : Nat) : Int) + x))) opacity)
          A.c255))] →
      op ∈ part1_ops A rsum opacity (2 * r + 1) r (width + 2 * r) (height + 2 * r) s := by
    intro op h
    exact List.mem_flatMap.mpr ⟨y, mem_forRange.mpr ⟨Nat.zero_le _, by omega⟩,
      List.mem_flatMap.mpr ⟨x, mem_forRange.mpr ⟨Nat.zero_le _, by omega⟩, h⟩⟩
  have hi := u32_rsum_index (show 2 * r ≤ 65535 by omega) hx hy
  rw [hi] at hmem
  rcases hpx with rfl | rfl <;> rcases hpy with rfl | rfl
  · exact ⟨_, hmem _ (by simp), store_writes py px _ rfl rfl (by omega) (by omega) hsz⟩
  · exact ⟨_, hmem _ (List.mem_cons_of_mem _ (List.mem_cons_of_mem _ (List.mem_cons_self _ _))),
      store_writes _ px _ (by omega) rfl (by omega) (by omega) hsz⟩
  · exact ⟨_, hmem _ (List.mem_cons_of_mem _ (List.mem_cons_of_mem _ (List.mem_cons_of_mem _
      (List.mem_cons_of_mem _ (List.mem_cons_self _ _))))),
      store_writes py _ _ rfl (by omega) (by omega) (by omega) hsz⟩
  · exact ⟨_, hmem _ (List.mem_cons_of_mem _ (List.mem_cons_of_mem _ (List.mem_cons_of_mem _
      (List.mem_cons_self _ _)))),
      store_writes _ _ _ (by omega) (by omega) (by omega) (by omega) hsz⟩

/-- Index `d * y + d - 1` of `shadow_sum`, computed in 32 bits. -/
theorem u32_tb_index {d y : Nat} (hd : 0 < d) (hd2 : d ≤ 65536) (hy : y ≤ 65535) :
    u32 ((d : Int) * (y : Int) + (d : Int) - 1) = d * y + d - 1 := by
  have hb : d * y ≤ 65536 * 65535 := Nat.mul_le_mul hd2 hy
  rw [← Nat.cast_mul]
  generalize d * y = p at hb ⊢
  unfold u32; omega

/-- Index `d * (d - 1) + x` of `shadow_sum`, computed in 32 bits. -/
theorem u32_lr_index {d x : Nat} (hd : 0 < d) (hd2 : d ≤ 65536) (hx : x ≤ 65535) :
    u32 ((d : Int) * ((d : Int) - 1) + (x : Int)) = d * (d - 1) + x := by
  have hb : d * (d - 1) ≤ 65536 * 65535 := Nat.mul_le_mul hd2 (by omega)
  have e : (d : Int) - 1 = ((d - 1 : Nat) : Int) := by omega
  rw [e, ← Nat.cast_mul]
  generalize d * (d - 1) = p at hb ⊢
  unfold u32; omega

theorem usize_strip {width r : Nat} (hW : width + 2 * r ≤ 65535) (h : 2 * r ≤ width) :
    usize ((width : Int) - (r : Int) * 2) = width - 2 * r := by
  unfold usize; omega

/-- Part 2, top/bottom, writes only in columns `[2r, width)` of the rows
`y' < 2r` and of their mirror images, one value per row. -/
theorem part2_tb_hit (A : DoubleOps) (rsum : Nat → A.D) (opacity : A.D)
    {r width height s : Nat} (hW : width + 2 * r ≤ 65535) (hw : 2 * r ≤ width)
    (hs : width + 2 * r ≤ s) (hsz : (height + 2 * r) * s < 4294967296)
    {x y : Nat} (hx : x < s) {op : MemOp}
    (hop : op ∈ part2_tb_ops A rsum opacity (2 * r + 1) r (height + 2 * r) width s)
    {u : Nat} (hu : op.writes (y * s + x) = some u) :
    ∃ y', y' < 2 * r ∧ (y = y' ∨ y = height + 2 * r - 1 - y') ∧ (2 * r ≤ x ∧ x < width) ∧
      u = A.toU8 (A.mul (A.mul (rsum ((2 * r + 1) * y' + (2 * r + 1) - 1)) opacity) A.c255) := by
  simp only [part2_tb_ops, List.mem_flatMap, mem_forRange, List.mem_cons, List.mem_singleton,
    List.not_mem_nil, or_false] at hop
  obtain ⟨y', hy', hop⟩ := hop
  rw [u32_tb_index (by omega) (by omega) (by omega)] at hop
  refine ⟨y', by omega, ?_⟩
  rcases hop with rfl | rfl | rfl
  · cases hu
  · obtain ⟨h1, h2, h3, h4⟩ := memset_hit y' (2 * r) (width - 2 * r) rfl (by omega)
      (usize_strip hW hw) (by omega) (by omega) hx hsz hu
    exact ⟨Or.inl h1.symm, ⟨h2, by omega⟩, h4⟩
  · obtain ⟨h1, h2, h3, h4⟩ := memset_hit (height + 2 * r - 1 - y') (2 * r) (width - 2 * r)
      (by omega) (by omega) (usize_strip hW hw) (by omega) (by omega) hx hsz hu
    exact ⟨Or.inr h1.symm, ⟨h2, by omega⟩, h4⟩

theorem part2_tb_writes (A : DoubleOps) (rsum : Nat → A.D) (opacity : A.D)
    {r width height s : Nat} (hW : width + 2 * r ≤ 65535) (hw : 2 * r ≤ width)
    (hs : width + 2 * r ≤ s) (hsz : (height + 2 * r) * s < 4294967296)
    {x y : Nat} (hx : 2 * r ≤ x ∧ x < width) (hy : y < 2 * r) (py : Nat)
    (hpy : py = y ∨ py = height + 2 * r - 1 - y) :
    ∃ op ∈ part2_tb_ops A rsum opacity (2 * r + 1) r (height + 2 * r) width s,
      op.writes (py * s + x) =
        some (A.toU8 (A.mul (A.mul (rsum ((2 * r + 1) * y + (2 * r + 1) - 1)) opacity)
          A.c255)) := by
  have hi := u32_tb_index (d := 2 * r + 1) (y := y) (by omega) (by omega) (by omega)
  have hmem : ∀ op, op ∈ [MemOp.load (u32 (((2 * r + 1 : Nat) : Int) * y + ((2 * r + 1 : Nat) : Int) - 1)),
      .memset (u32 ((y : Int) * s + (r : Int) * 2))
        (A.toU8 (A.mul (A.mul (rsum (u32 (((2 * r + 1 : Nat) : Int) * y +
          ((2 * r + 1 : Nat) : Int) - 1))) opacity) A.c255))
        (usize ((width : Int) - (r : Int) * 2)),
      .memset (u32 ((((height + 2 * r : Nat) : Int) - y - 1) * s + (r : Int) * 2))
        (A.toU8 (A.mul (A.mul (rsum (u32 (((2 * r + 1 : Nat) : Int) * y +
          ((2 * r + 1 : Nat) : Int) - 1))) opacity) A.c255))
        (usize ((width : Int) - (r : Int) * 2))] →
      op ∈ part2_tb_ops A rsum opacity (2 * r + 1) r (height + 2 * r) width s := by
    intro op h
    exact List.mem_flatMap.mpr ⟨y, mem_forRange.mpr ⟨Nat.zero_le _, by omega⟩, h⟩
  rw [hi] at hmem
  rcases hpy with rfl | rfl
  · exact ⟨_, hmem _ (List.mem_cons_of_mem _ (List.mem_cons_self _ _)),
      memset_writes py (2 * r) (width - 2 * r) x _ rfl (by omega) (usize_strip hW hw)
        (by omega) (by omega) hx.1 (by omega) hsz⟩
  · exact ⟨_, hmem _ (List.mem_cons_of_mem _ (List.mem_cons_of_mem _ (List.mem_cons_self _ _))),
      memset_writes _ (2 * r) (width - 2 * r) x _ (by omega) (by omega) (usize_strip hW hw)
        (by omega) (by omega) hx.1 (by omega) hsz⟩

/-- Part 2, left/right, writes only in rows `[2r, height)` of the columns
`x' < 2r` and of their mirror images, one value per column. -/
theorem part2_lr_hit (A : DoubleOps) (rsum : Nat → A.D) (opacity : A.D)
    {r width height s : Nat} (hW : width + 2 * r ≤ 65535)
    (hs : width + 2 * r ≤ s) (hsz : (height + 2 * r) * s < 4294967296)
    {x y : Nat} (hx : x < s) {op : MemOp}
    (hop : op ∈ part2_lr_ops A rsum opacity (2 * r + 1) r (width + 2 * r) height s)
    {u : Nat} (hu : op.writes (y * s + x) = some u) :
    ∃ x', x' < 2 * r ∧ (x = x' ∨ x = width + 2 * r - 1 - x') ∧ (2 * r ≤ y ∧ y < height) ∧
      u = A.toU8 (A.mul (A.mul (rsum ((2 * r + 1) * (2 * r + 1 - 1) + x')) opacity) A.c255) := by
  simp only [part2_lr_ops, List.mem_flatMap, mem_forRange, List.mem_cons, List.mem_singleton,
    List.not_mem_nil, or_false] at hop
  obtain ⟨x', hx', hop⟩ := hop
  rw [u32_lr_index (by omega) (by omega) (by omega)] at hop
  refine ⟨x', by omega, ?_⟩
  rcases hop with rfl | ⟨y', hy', rfl | rfl⟩
  · cases hu
  · obtain ⟨h1, h2, h3⟩ := store_hit y' x' rfl rfl (by omega) (by omega) hx hsz hu
    exact ⟨Or.inl h2.symm, by omega, h3⟩
  · obtain ⟨h1, h2, h3⟩ := store_hit y' (width + 2 * r - 1 - x') rfl (by omega) (by omega)
      (by omega) hx hsz hu
    exact ⟨Or.inr h2.symm, by omega, h3⟩

theorem part2_lr_writes (A : DoubleOps) (rsum : Nat → A.D) (opacity : A.D)
    {r width height s : Nat} (hW : width + 2 * r ≤ 65535)
    (hs : width + 2 * r ≤ s) (hsz : (height + 2 * r) * s < 4294967296)
    {x y : Nat} (hx : x < 2 * r) (hy : 2 * r ≤ y ∧ y < height) (px : Nat)
    (hpx : px = x ∨ px = width + 2 * r - 1 - x) :
    ∃ op ∈ part2_lr_ops A rsum opacity (2 * r + 1) r (width + 2 * r) height s,
      op.writes (y * s + px) =
        some (A.toU8 (A.mul (A.mul (rsum ((2 * r + 1) * (2 * r + 1 - 1) + x)) opacity)
          A.c255)) := by
  have hi := u32_lr_index (d := 2 * r + 1) (x := x) (by omega) (by omega) (by omega)
  have hmem : ∀ op, op ∈ [
      MemOp.store (u32 ((y : Int) * s + x))
        (A.toU8 (A.mul (A.mul (rsum (u32 (((2 * r + 1 : Nat) : Int) *
          (((2 * r + 1 : Nat) : Int) - 1) + x))) opacity) A.c255)),
      .store (u32 ((y : Int) * s + (((width + 2 * r : Nat) : Int) - x - 1)))
        (A.toU8 (A.mul (A.mul (rsum (u32 (((2 * r + 1 : Nat) : Int) *
          (((2 * r + 1 : Nat) : Int) - 1) + x))) opacity) A.c255))] →
      op ∈ part2_lr_ops A rsum opacity (2 * r + 1) r (width + 2 * r) height s := by
    intro op h
    exact List.mem_flatMap.mpr ⟨x, mem_forRange.mpr ⟨Nat.zero_le _, by omega⟩,
      List.mem_cons_of_mem _ (List.mem_flatMap.mpr ⟨y, mem_forRange.mpr ⟨by omega, hy.2⟩, h⟩)⟩
  rw [hi] at hmem
  rcases hpx with rfl | rfl
  · exact ⟨_, hmem _ (List.mem_cons_self _ _),
      store_writes y px _ rfl rfl (by omega) (by omega) hsz⟩
  · exact ⟨_, hmem _ (List.mem_cons_of_mem _ (List.mem_cons_self _ _)),
      store_writes y _ _ rfl (by omega) (by omega) (by omega) hsz⟩

/-! ## The regular regime, assembled -/

theorem ops_regular (A : DoubleOps) (kernel : conv A.D)
    (snorm : Int → Int → Nat → Nat → A.D) (opacity : A.D) {r width height sstride : Nat}
    (hf : Fits kernel r width height sstride) (hw : 2 * r ≤ width) (hh : 2 * r ≤ height) :
    make_shadow_ops A kernel snorm opacity width height sstride =
      part3_ops A opacity r width height sstride ++
        (part1_ops A kernel.rsum opacity (2 * r + 1) r (width + 2 * r) (height + 2 * r) sstride
          ++ (part2_tb_ops A kernel.rsum opacity (2 * r + 1) r (height + 2 * r) width sstride
            ++ part2_lr_ops A kernel.rsum opacity (2 * r + 1) r (width + 2 * r) height
              sstride)) := by
  have hr : 2 * r ≤ 65535 := by have := hf.wfit; omega
  unfold make_shadow_ops
  simp only [radius_eq hf.side hr, ssize_eq hf.side hf.wfit, ssize_eq hf.side hf.hfit,
    u32_side hf.side hr]
  rw [if_neg (by omega), if_neg (by omega), if_neg (by omega)]
  simp only [List.append_assoc]

/-- Regular regime: a corner pixel, given as one of the four mirror images of
`(x, y)` with `x, y < 2r`, holds the corner value of `(x, y)`. -/
theorem regular_corner_val (A : DoubleOps) (kernel : conv A.D)
    (snorm : Int → Int → Nat → Nat → A.D) (opacity : A.D) {r width height sstride : Nat}
    (hf : Fits kernel r width height sstride) (hw : 2 * r ≤ width) (hh : 2 * r ≤ height)
    {x y : Nat} (hx : x < 2 * r) (hy : y < 2 * r) (px py : Nat)
    (hpx : px = x ∨ px = width + 2 * r - 1 - x) (hpy : py = y ∨ py = height + 2 * r - 1 - y) :
    run (make_shadow_ops A kernel snorm opacity width height sstride) (fun _ => none)
        (py * sstride + px) =
      some (A.toU8 (A.mul (A.mul (kernel.rsum (y * (2 * r + 1) + x)) opacity) A.c255)) := by
  have hW := hf.wfit
  have hs := hf.stride_ge
  have hsz := hf.size_fit
  have hps : px < sstride := by omega
  rw [ops_regular A kernel snorm opacity hf hw hh]
  apply run_last
  · obtain ⟨op, hop, hv⟩ := part1_writes A kernel.rsum opacity hW hs hsz hx hy px py hpx hpy
    exact ⟨op, List.mem_append_left _ hop, hv⟩
  · intro op hop u hu
    rcases List.mem_append.mp hop with h1 | h23
    · obtain ⟨x', y', hx', hy', hxx, hyy, rfl⟩ := part1_hit A kernel.rsum opacity hW hs hsz hps
        h1 hu
      have ex : x' = x := by omega
      have ey : y' = y := by omega
      rw [ex, ey]
    · rcases List.mem_append.mp h23 with h2 | h3
      · obtain ⟨y', _, _, hxx, _⟩ := part2_tb_hit A kernel.rsum opacity hW hw hs hsz hps h2 hu
        omega
      · obtain ⟨x', _, _, hyy, _⟩ := part2_lr_hit A kernel.rsum opacity hW hs hsz hps h3 hu
        omega

/-- Regular regime: a pixel of the top or bottom strip, in row `y < 2r` or its
mirror image and in a column of `[2r, width)`, holds the value of row `y`. -/
theorem regular_tb_val (A : DoubleOps) (kernel : conv A.D)
    (snorm : Int → Int → Nat → Nat → A.D) (opacity : A.D) {r width height sstride : Nat}
    (hf : Fits kernel r width height sstride) (hw : 2 * r ≤ width) (hh : 2 * r ≤ height)
    {x y : Nat} (hx : 2 * r ≤ x ∧ x < width) (hy : y < 2 * r) (py : Nat)
    (hpy : py = y ∨ py = height + 2 * r - 1 - y) :
    run (make_shadow_ops A kernel snorm opacity width height sstride) (fun _ => none)
        (py * sstride + x) =
      some (A.toU8 (A.mul (A.mul (kernel.rsum ((2 * r + 1) * y + (2 * r + 1) - 1)) opacity)
        A.c255)) := by
  have hW := hf.wfit
  have hs := hf.stride_ge
  have hsz := hf.size_fit
  have hps : x < sstride := by omega
  rw [ops_regular A kernel snorm opacity hf hw hh]
  apply run_last
  · obtain ⟨op, hop, hv⟩ := part2_tb_writes A kernel.rsum opacity hW hw hs hsz hx hy py hpy
    exact ⟨op, List.mem_append_right _ (List.mem_append_left _ hop), hv⟩
  · intro op hop u hu
    rcases List.mem_append.mp hop with h1 | h23
    · obtain ⟨x', y', hx', hy', hxx, hyy, _⟩ := part1_hit A kernel.rsum opacity hW hs hsz hps
        h1 hu
      omega
    · rcases List.mem_append.mp h23 with h2 | h3
      · obtain ⟨y', hy', hyy, _, rfl⟩ := part2_tb_hit A kernel.rsum opacity hW hw hs hsz hps
          h2 hu
        have ey : y' = y := by omega
        rw [ey]
      · obtain ⟨x', _, _, hyy, _⟩ := part2_lr_hit A kernel.rsum opacity hW hs hsz hps h3 hu
        omega

/-- Regular regime: a pixel of the left or right strip, in column `x < 2r` or
its mirror image and in a row of `[2r, height)`, holds the value of column `x`. -/
theorem regular_lr_val (A : DoubleOps) (kernel : conv A.D)
    (snorm : Int → Int → Nat → Nat → A.D) (opacity : A.D) {r width height sstride : Nat}
    (hf : Fits kernel r width height sstride) (hw : 2 * r ≤ width) (hh : 2 * r ≤ height)
    {x y : Nat} (hx : x < 2 * r) (hy : 2 * r ≤ y ∧ y < height) (px : Nat)
    (hpx : px = x ∨ px = width + 2 * r - 1 - x) :
    run (make_shadow_ops A kernel snorm opacity width height sstride) (fun _ => none)
        (y * sstride + px) =
      some (A.toU8 (A.mul (A.mul (kernel.rsum ((2 * r + 1) * (2 * r + 1 - 1) + x)) opacity)
        A.c255)) := by
  have hW := hf.wfit
  have hs := hf.stride_ge
  have hsz := hf.size_fit
  have hps : px < sstride := by omega
  rw [ops_regular A kernel snorm opacity hf hw hh]
  apply run_last
  · obtain ⟨op, hop, hv⟩ := part2_lr_writes A kernel.rsum opacity hW hs hsz hx hy px hpx
    exact ⟨op, List.mem_append_right _ (List.mem_append_right _ hop), hv⟩
  · intro op hop u hu
    rcases List.mem_append.mp hop with h1 | h23
    · obtain ⟨x', y', hx', hy', hxx, hyy, _⟩ := part1_hit A kernel.rsum opacity hW hs hsz hps
        h1 hu
      omega
    · rcases List.mem_append.mp h23 with h2 | h3
      · obtain ⟨y', _, hyy, _, _⟩ := part2_tb_hit A kernel.rsum opacity hW hw hs hsz hps h2 hu
        omega
      · obtain ⟨x', hx', hxx, _, rfl⟩ := part2_lr_hit A kernel.rsum opacity hW hs hsz hps h3 hu
        have ex : x' = x := by omega
        rw [ex]

/-- Regular regime: a pixel of `[2r, width) x [2r, height)` holds
`(uint8_t)(255 * opacity)`. -/
theorem regular_interior_val (A : DoubleOps) (kernel : conv A.D)
    (snorm : Int → Int → Nat → Nat → A.D) (opacity : A.D) {r width height sstride : Nat}
    (hf : Fits kernel r width height sstride) (hw : 2 * r ≤ width) (hh : 2 * r ≤ height)
    {x y : Nat} (hx : 2 * r ≤ x ∧ x < width) (hy : 2 * r ≤ y ∧ y < height) :
    run (make_shadow_ops A kernel snorm opacity width height sstride) (fun _ => none)
        (y * sstride + x) = some (A.toU8 (A.mul A.c255 opacity)) := by
  have hW := hf.wfit
  have hs := hf.stride_ge
  have hsz := hf.size_fit
  have hps : x < sstride := by omega
  rw [ops_regular A kernel snorm opacity hf hw hh]
  apply run_agree
  · intro op hop u hu
    rcases List.mem_append.mp hop with h0 | h123
    · exact (part3_hit A opacity hs hsz hps h0 hu).2.2
    · rcases List.mem_append.mp h123 with h1 | h23
      · obtain ⟨x', y', hx', hy', hxx, hyy, _⟩ := part1_hit A kernel.rsum opacity hW hs hsz hps
          h1 hu
        omega
      · rcases List.mem_append.mp h23 with h2 | h3
        · obtain ⟨y', _, hyy, _, _⟩ := part2_tb_hit A kernel.rsum opacity hW hw hs hsz hps
            h2 hu
          omega
        · obtain ⟨x', _, hxx, _, _⟩ := part2_lr_hit A kernel.rsum opacity hW hs hsz hps h3 hu
          omega
  · right
    obtain ⟨op, hop, hv⟩ := part3_writes A opacity hs hsz (x := x) (y := y) (by omega) (by omega)
    exact ⟨op, List.mem_append_left _ hop, hv⟩

/-! ## The fully degenerate regime -/

theorem ops_degenerate (A : DoubleOps) (kernel : conv A.D)
    (snorm : Int → Int → Nat → Nat → A.D) (opacity : A.D) {r width height sstride : Nat}
    (hf : Fits kernel r width height sstride) (hw : width < 2 * r) (hh : height < 2 * r) :
    make_shadow_ops A kernel snorm opacity width height sstride =
      degenerate_ops A snorm (2 * r + 1) (width + 2 * r) (height + 2 * r) width height
        sstride := by
  have hr : 2 * r ≤ 65535 := by have := hf.wfit; omega
  unfold make_shadow_ops
  simp only [radius_eq hf.side hr, ssize_eq hf.side hf.wfit, ssize_eq hf.side hf.hfit,
    u32_side hf.side hr]
  rw [if_pos ⟨by omega, by omega⟩]

/-- Pixel of the fully degenerate regime. -/
theorem degenerate_pixel_val (A : DoubleOps) (kernel : conv A.D)
    (snorm : Int → Int → Nat → Nat → A.D) (opacity : A.D) {r width height sstride : Nat}
    (hf : Fits kernel r width height sstride) (hw : width < 2 * r) (hh : height < 2 * r)
    {x y : Nat} (hx : x < width + 2 * r) (hy : y < height + 2 * r) :
    run (make_shadow_ops A kernel snorm opacity width height sstride) (fun _ => none)
        (y * sstride + x) =
      some (A.toU8 (A.mul (snorm (kernel.w - 1 - x) (kernel.w - 1 - y) width height) A.c255)) := by
  have hW := hf.wfit
  have hH := hf.hfit
  have hs := hf.stride_ge
  rw [ops_degenerate A kernel snorm opacity hf hw hh, hf.side]
  unfold degenerate_ops
  have hix : i32 (((2 * r + 1 : Nat) : Int) - x - 1) = 2 * (r : Int) + 1 - 1 - x := by
    rw [i32_of_bounds (by omega) (by omega)]; omega
  have hiy : i32 (((2 * r + 1 : Nat) : Int) - y - 1) = 2 * (r : Int) + 1 - 1 - y := by
    rw [i32_of_bounds (by omega) (by omega)]; omega
  apply run_agree
  · intro op hop u hu
    simp only [List.mem_flatMap, mem_forRange, List.mem_singleton] at hop
    obtain ⟨y', hy', x', hx', rfl⟩ := hop
    rw [u32_offset hy'.2 (by omega) hf.size_fit,
      writes_store_pix (by omega) (by omega)] at hu
    split at hu
    · rename_i h
      obtain ⟨rfl, rfl⟩ := h
      rw [hix, hiy] at hu
      exact (Option.some.inj hu).symm
    · cases hu
  · right
    refine ⟨_, List.mem_flatMap.mpr ⟨y, mem_forRange.mpr ⟨Nat.zero_le _, hy⟩,
      List.mem_flatMap.mpr ⟨x, mem_forRange.mpr ⟨Nat.zero_le _, hx⟩,
        List.mem_singleton.mpr rfl⟩⟩, ?_⟩
    · rw [u32_offset hy (by omega) hf.size_fit, writes_store_pix (by omega) (by omega),
        if_pos ⟨rfl, rfl⟩, hix, hiy]

/-! ## The width-degenerate regime (`width < 2r ≤ height`) -/

theorem ops_narrow (A : DoubleOps) (kernel : conv A.D)
    (snorm : Int → Int → Nat → Nat → A.D) (opacity : A.D) {r width height sstride : Nat}
    (hf : Fits kernel r width height sstride) (hw : width < 2 * r) (hh : 2 * r ≤ height) :
    make_shadow_ops A kernel snorm opacity width height sstride =
      narrow_ops A snorm (2 * r + 1) r (width + 2 * r) (height + 2 * r) width height
        sstride := by
  have hr : 2 * r ≤ 65535 := by have := hf.wfit; omega
  unfold make_shadow_ops
  simp only [radius_eq hf.side hr, ssize_eq hf.side hf.wfit, ssize_eq hf.side hf.hfit,
    u32_side hf.side hr]
  rw [if_neg (by omega), if_neg (by omega), if_pos (by omega)]

/-- Signed kernel coordinate `(int)(d - x - 1)` for a canvas coordinate. -/
theorem i32_coord {r x : Nat} (hr : 2 * r ≤ 65535) (hx : x ≤ 65535) :
    i32 (((2 * r + 1 : Nat) : Int) - (x : Int) - 1) = 2 * (r : Int) + 1 - 1 - (x : Int) := by
  rw [i32_of_bounds (by omega) (by omega)]; omega

/-- What an operation of the width-degenerate regime writes at a pixel. -/
theorem narrow_hit (A : DoubleOps) (snorm : Int → Int → Nat → Nat → A.D)
    {r width height s : Nat} (hW : width + 2 * r ≤ 65535)
    (hs : width + 2 * r ≤ s) (hsz : (height + 2 * r) * s < 4294967296)
    {x y : Nat} (hx : x < s) {op : MemOp}
    (hop : op ∈ narrow_ops A snorm (2 * r + 1) r (width + 2 * r) (height + 2 * r) width height s)
    {u : Nat} (hu : op.writes (y * s + x) = some u) :
    x < width + 2 * r ∧
    ((∃ y', y' < 2 * r ∧ (y = y' ∨ y = height + 2 * r - 1 - y') ∧
        u = A.toU8 (A.mul (snorm (2 * (r : Int) + 1 - 1 - (x : Int))
          (2 * (r : Int) + 1 - 1 - (y' : Int)) width (2 * r + 1)) A.c255)) ∨
      ((2 * r ≤ y ∧ y < height) ∧
        u = A.toU8 (A.mul (snorm (2 * (r : Int) + 1 - 1 - (x : Int)) 0 width (2 * r + 1))
          A.c255))) := by
  simp only [narrow_ops, List.mem_append, List.mem_flatMap, mem_forRange, List.mem_cons,
    List.mem_singleton, List.not_mem_nil, or_false] at hop
  rcases hop with ⟨y', hy', x', hx', hop⟩ | ⟨x', hx', y', hy', rfl⟩
  · rw [i32_coord (by omega) (by omega), i32_coord (by omega) (by omega)] at hop
    rcases hop with rfl | rfl
    · obtain ⟨h1, h2, h3⟩ := store_hit y' x' rfl rfl (by omega) (by omega) hx hsz hu
      subst h2
      exact ⟨hx'.2, Or.inl ⟨y', by omega, Or.inl h1.symm, h3⟩⟩
    · obtain ⟨h1, h2, h3⟩ := store_hit (height + 2 * r - 1 - y') x' (by omega) rfl (by omega)
        (by omega) hx hsz hu
      subst h2
      exact ⟨hx'.2, Or.inl ⟨y', by omega, Or.inr h1.symm, h3⟩⟩
  · rw [i32_coord (by omega) (by omega)] at hu
    obtain ⟨h1, h2, h3⟩ := store_hit y' x' rfl rfl (by omega) (by omega) hx hsz hu
    subst h2
    exact ⟨hx'.2, Or.inr ⟨by omega, h3⟩⟩

/-- Width-degenerate regime: rows `y < 2r` and their mirror images. -/
theorem narrow_edge_val (A : DoubleOps) (kernel : conv A.D)
    (snorm : Int → Int → Nat → Nat → A.D) (opacity : A.D) {r width height sstride : Nat}
    (hf : Fits kernel r width height sstride) (hw : width < 2 * r) (hh : 2 * r ≤ height)
    {x y : Nat} (hx : x < width + 2 * r) (hy : y < 2 * r) (py : Nat)
    (hpy : py = y ∨ py = height + 2 * r - 1 - y) :
    run (make_shadow_ops A kernel snorm opacity width height sstride) (fun _ => none)
        (py * sstride + x) =
      some (A.toU8 (A.mul (snorm (kernel.w - 1 - (x : Int)) (kernel.w - 1 - (y : Int)) width
        (2 * r + 1)) A.c255)) := by
  have hW := hf.wfit
  have hs := hf.stride_ge
  have hsz := hf.size_fit
  rw [ops_narrow A kernel snorm opacity hf hw hh, hf.side]
  apply run_agree
  · intro op hop u hu
    obtain ⟨_, h | h⟩ := narrow_hit A snorm hW hs hsz (by omega) hop hu
    · obtain ⟨y', hy', hyy, rfl⟩ := h
      have ey : y' = y := by omega
      rw [ey]
    · omega
  · right
    have hmem : ∀ op, op ∈ [MemOp.store (u32 ((y : Int) * sstride + x))
          (A.toU8 (A.mul (snorm (i32 (((2 * r + 1 : Nat) : Int) - x - 1))
            (i32 (((2 * r + 1 : Nat) : Int) - y - 1)) width (2 * r + 1)) A.c255)),
        MemOp.store (u32 ((((height + 2 * r : Nat) : Int) - y - 1) * sstride + x))
          (A.toU8 (A.mul (snorm (i32 (((2 * r + 1 : Nat) : Int) - x - 1))
            (i32 (((2 * r + 1 : Nat) : Int) - y - 1)) width (2 * r + 1)) A.c255))] →
        op ∈ narrow_ops A snorm (2 * r + 1) r (width + 2 * r) (height + 2 * r) width height
          sstride := by
      intro op h
      exact List.mem_append_left _ (List.mem_flatMap.mpr ⟨y, mem_forRange.mpr
        ⟨Nat.zero_le _, by omega⟩, List.mem_flatMap.mpr ⟨x, mem_forRange.mpr
        ⟨Nat.zero_le _, hx⟩, h⟩⟩)
    rw [i32_coord (by omega) (by omega), i32_coord (by omega) (by omega)] at hmem
    rcases hpy with rfl | rfl
    · exact ⟨_, hmem _ (List.mem_cons_self _ _),
        store_writes py x _ rfl rfl (by omega) (by omega) hsz⟩
    · exact ⟨_, hmem _ (List.mem_cons_of_mem _ (List.mem_cons_self _ _)),
        store_writes _ x _ (by omega) rfl (by omega) (by omega) hsz⟩

/-- Width-degenerate regime: rows `2r ≤ y < height`. -/
theorem narrow_band_val (A : DoubleOps) (kernel : conv A.D)
    (snorm : Int → Int → Nat → Nat → A.D) (opacity : A.D) {r width height sstride : Nat}
    (hf : Fits kernel r width height sstride) (hw : width < 2 * r) (hh : 2 * r ≤ height)
    {x y : Nat} (hx : x < width + 2 * r) (hy : 2 * r ≤ y ∧ y < height) :
    run (make_shadow_ops A kernel snorm opacity width height sstride) (fun _ => none)
        (y * sstride + x) =
      some (A.toU8 (A.mul (snorm (kernel.w - 1 - (x : Int)) 0 width (2 * r + 1)) A.c255)) := by
  have hW := hf.wfit
  have hs := hf.stride_ge
  have hsz := hf.size_fit
  rw [ops_narrow A kernel snorm opacity hf hw hh, hf.side]
  apply run_agree
  · intro op hop u hu
    obtain ⟨_, h | h⟩ := narrow_hit A snorm hW hs hsz (by omega) hop hu
    · obtain ⟨y', hy', hyy, _⟩ := h
      omega
    · exact h.2
  · right
    have hmem : MemOp.store (u32 ((y : Int) * sstride + x))
          (A.toU8 (A.mul (snorm (i32 (((2 * r + 1 : Nat) : Int) - x - 1)) 0 width (2 * r + 1))
            A.c255)) ∈
        narrow_ops A snorm (2 * r + 1) r (width + 2 * r) (height + 2 * r) width height
          sstride :=
      List.mem_append_right _ (List.mem_flatMap.mpr ⟨x, mem_forRange.mpr
        ⟨Nat.zero_le _, hx⟩, List.mem_flatMap.mpr ⟨y, mem_forRange.mpr ⟨by omega, hy.2⟩,
        List.mem_singleton.mpr rfl⟩⟩)
    rw [i32_coord (by omega) (by omega)] at hmem
    exact ⟨_, hmem, store_writes y x _ rfl rfl (by omega) (by omega) hsz⟩

/-! ## The height-degenerate regime (`height < 2r ≤ width`) -/

theorem ops_short (A : DoubleOps) (kernel : conv A.D)
    (snorm : Int → Int → Nat → Nat → A.D) (opacity : A.D) {r width height sstride : Nat}
    (hf : Fits kernel r width height sstride) (hw : 2 * r ≤ width) (hh : height < 2 * r) :
    make_shadow_ops A kernel snorm opacity width height sstride =
      short_ops A snorm (2 * r + 1) r (width + 2 * r) (height + 2 * r) width height
        sstride := by
  have hr : 2 * r ≤ 65535 := by have := hf.wfit; omega
  unfold make_shadow_ops
  simp only [radius_eq hf.side hr, ssize_eq hf.side hf.wfit, ssize_eq hf.side hf.hfit,
    u32_side hf.side hr]
  rw [if_neg (by omega), if_pos (by omega)]

/-- The offset `y * sstride + swidth - x - 1`, as the code groups it. -/
theorem offset_mirror_col {s W x y : Nat} (hx : x < W) :
    (y : Int) * (s : Int) + (W : Int) - (x : Int) - 1 =
      (y : Int) * (s : Int) + ((W - 1 - x : Nat) : Int) := by
  omega

theorem usize_strip2 {width r : Nat} (hW : width + 2 * r ≤ 65535) (h : 2 * r ≤ width) :
    usize ((width : Int) - 2 * (r : Int)) = width - 2 * r := by
  unfold usize; omega

/-- What an operation of the height-degenerate regime writes at a pixel. -/
theorem short_hit (A : DoubleOps) (snorm : Int → Int → Nat → Nat → A.D)
    {r width height s : Nat} (hW : width + 2 * r ≤ 65535) (hH : height + 2 * r ≤ 65535)
    (hw : 2 * r ≤ width)
    (hs : width + 2 * r ≤ s) (hsz : (height + 2 * r) * s < 4294967296)
    {x y : Nat} (hx : x < s) {op : MemOp}
    (hop : op ∈ short_ops A snorm (2 * r + 1) r (width + 2 * r) (height + 2 * r) width height s)
    {u : Nat} (hu : op.writes (y * s + x) = some u) :
    y < height + 2 * r ∧
    ((∃ x', x' < 2 * r ∧ (x = x' ∨ x = width + 2 * r - 1 - x') ∧
        u = A.toU8 (A.mul (snorm (2 * (r : Int) + 1 - 1 - (x' : Int))
          (2 * (r : Int) + 1 - 1 - (y : Int)) (2 * r + 1) height) A.c255)) ∨
      ((2 * r ≤ x ∧ x < width) ∧
        u = A.toU8 (A.mul (snorm 0 (2 * (r : Int) + 1 - 1 - (y : Int)) (2 * r + 1) height)
          A.c255))) := by
  simp only [short_ops, List.mem_append, List.mem_flatMap, mem_forRange, List.mem_cons,
    List.mem_singleton, List.not_mem_nil, or_false] at hop
  rcases hop with ⟨y', hy', x', hx', hop⟩ | ⟨y', hy', rfl⟩
  · rw [i32_coord (by omega) (by omega), i32_coord (by omega) (by omega)] at hop
    rcases hop with rfl | rfl
    · obtain ⟨h1, h2, h3⟩ := store_hit y' x' rfl rfl (by omega) (by omega) hx hsz hu
      subst h1
      exact ⟨hy'.2, Or.inl ⟨x', by omega, Or.inl h2.symm, h3⟩⟩
    · rw [offset_mirror_col (show x' < width + 2 * r by omega)] at hu
      obtain ⟨h1, h2, h3⟩ := store_hit y' (width + 2 * r - 1 - x') rfl rfl (by omega)
        (by omega) hx hsz hu
      subst h1
      exact ⟨hy'.2, Or.inl ⟨x', by omega, Or.inr h2.symm, h3⟩⟩
  · rw [i32_coord (by omega) (by omega)] at hu
    obtain ⟨h1, h2, h3, h4⟩ := memset_hit y' (2 * r) (width - 2 * r) rfl (by omega)
      (usize_strip2 hW hw) (by omega) (by omega) hx hsz hu
    subst h1
    exact ⟨hy'.2, Or.inr ⟨⟨h2, by omega⟩, h4⟩⟩

/-- Height-degenerate regime: columns `x < 2r` and their mirror images. -/
theorem short_edge_val (A : DoubleOps) (kernel : conv A.D)
    (snorm : Int → Int → Nat → Nat → A.D) (opacity : A.D) {r width height sstride : Nat}
    (hf : Fits kernel r width height sstride) (hw : 2 * r ≤ width) (hh : height < 2 * r)
    {x y : Nat} (hx : x < 2 * r) (hy : y < height + 2 * r) (px : Nat)
    (hpx : px = x ∨ px = width + 2 * r - 1 - x) :
    run (make_shadow_ops A kernel snorm opacity width height sstride) (fun _ => none)
        (y * sstride + px) =
      some (A.toU8 (A.mul (snorm (kernel.w - 1 - (x : Int)) (kernel.w - 1 - (y : Int))
        (2 * r + 1) height) A.c255)) := by
  have hW := hf.wfit
  have hH := hf.hfit
  have hs := hf.stride_ge
  have hsz := hf.size_fit
  have hps : px < sstride := by omega
  rw [ops_short A kernel snorm opacity hf hw hh, hf.side]
  apply run_agree
  · intro op hop u hu
    obtain ⟨_, h | h⟩ := short_hit A snorm hW hH hw hs hsz hps hop hu
    · obtain ⟨x', hx', hxx, rfl⟩ := h
      have ex : x' = x := by omega
      rw [ex]
    · omega
  · right
    have hmem : ∀ op, op ∈ [MemOp.store (u32 ((y : Int) * sstride + x))
          (A.toU8 (A.mul (snorm (i32 (((2 * r + 1 : Nat) : Int) - x - 1))
            (i32 (((2 * r + 1 : Nat) : Int) - y - 1)) (2 * r + 1) height) A.c255)),
        MemOp.store (u32 ((y : Int) * sstride + ((width + 2 * r : Nat) : Int) - x - 1))
          (A.toU8 (A.mul (snorm (i32 (((2 * r + 1 : Nat) : Int) - x - 1))
            (i32 (((2 * r + 1 : Nat) : Int) - y - 1)) (2 * r + 1) height) A.c255))] →
        op ∈ short_ops A snorm (2 * r + 1) r (width + 2 * r) (height + 2 * r) width height
          sstride := by
      intro op h
      exact List.mem_append_left _ (List.mem_flatMap.mpr ⟨y, mem_forRange.mpr
        ⟨Nat.zero_le _, hy⟩, List.mem_flatMap.mpr ⟨x, mem_forRange.mpr
        ⟨Nat.zero_le _, by omega⟩, h⟩⟩)
    rw [i32_coord (by omega) (by omega), i32_coord (by omega) (by omega),
      offset_mirror_col (show x < width + 2 * r by omega)] at hmem
    rcases hpx with rfl | rfl
    · exact ⟨_, hmem _ (List.mem_cons_self _ _),
        store_writes y px _ rfl rfl (by omega) (by omega) hsz⟩
    · exact ⟨_, hmem _ (List.mem_cons_of_mem _ (List.mem_cons_self _ _)),
        store_writes y _ _ rfl rfl (by omega) (by omega) hsz⟩

/-- Height-degenerate regime: columns `2r ≤ x < width`. -/
theorem short_band_val (A : DoubleOps) (kernel : conv A.D)
    (snorm : Int → Int → Nat → Nat → A.D) (opacity : A.D) {r width height sstride : Nat}
    (hf : Fits kernel r width height sstride) (hw : 2 * r ≤ width) (hh : height < 2 * r)
    {x y : Nat} (hx : 2 * r ≤ x ∧ x < width) (hy : y < height + 2 * r) :
    run (make_shadow_ops A kernel snorm opacity width height sstride) (fun _ => none)
        (y * sstride + x) =
      some (A.toU8 (A.mul (snorm 0 (kernel.w - 1 - (y : Int)) (2 * r + 1) height) A.c255)) := by
  have hW := hf.wfit
  have hH := hf.hfit
  have hs := hf.stride_ge
  have hsz := hf.size_fit
  have hps : x < sstride := by omega
  rw [ops_short A kernel snorm opacity hf hw hh, hf.side]
  apply run_agree
  · intro op hop u hu
    obtain ⟨_, h | h⟩ := short_hit A snorm hW hH hw hs hsz hps hop hu
    · obtain ⟨x', hx', hxx, _⟩ := h
      omega
    · exact h.2
  · right
    have hmem : MemOp.memset (u32 ((y : Int) * sstride + (r : Int) * 2))
          (A.toU8 (A.mul (snorm 0 (i32 (((2 * r + 1 : Nat) : Int) - y - 1)) (2 * r + 1) height)
            A.c255)) (usize ((width : Int) - 2 * (r : Int))) ∈
        short_ops A snorm (2 * r + 1) r (width + 2 * r) (height + 2 * r) width height
          sstride :=
      List.mem_append_right _ (List.mem_flatMap.mpr ⟨y, mem_forRange.mpr
        ⟨Nat.zero_le _, hy⟩, List.mem_singleton.mpr rfl⟩)
    rw [i32_coord (by omega) (by omega)] at hmem
    exact ⟨_, hmem, memset_writes y (2 * r) (width - 2 * r) x _ rfl (by omega)
      (usize_strip2 hW hw) (by omega) (by omega) hx.1 (by omega) hsz⟩

/-! ## Coverage of the canvas -/

/-- Either no operation writes the byte, or its final content does not depend
on what the buffer held. -/
theorem run_eq_or (ops : List MemOp) (i : Nat) :
    ∀ buf : Nat → Option Nat,
      run ops buf i = buf i ∨ ∀ other : Nat → Option Nat, run ops other i = run ops buf i := by
  induction ops with
  | nil => intro buf; exact Or.inl rfl
  | cons op ops ih =>
    intro buf
    rw [run_cons]
    cases hw : op.writes i with
    | none =>
      rcases ih (op.exec buf) with h | h
      · left
        rw [h]; simp [MemOp.exec, hw]
      · right
        intro other
        rw [run_cons]; exact h _
    | some v =>
      right
      intro other
      rw [run_cons]
      have e : op.exec other i = op.exec buf i := by simp [MemOp.exec, hw]
      rcases ih (op.exec buf) with h | h
      · rcases ih (op.exec other) with h' | h'
        · rw [h, h', e]
        · exact (h' (op.exec buf)).symm
      · exact h _

/-- A byte that ends up written when the buffer starts unwritten ends up with
the same content whatever the buffer held. -/
theorem run_indep (ops : List MemOp) (i v : Nat)
    (h : run ops (fun _ => none) i = some v) (buf : Nat → Option Nat) :
    run ops buf i = some v := by
  rcases run_eq_or ops i (fun _ => none) with h0 | h0
  · rw [h0] at h; cases h
  · rw [h0 buf, h]

/-- Every pixel of the canvas is written, in each regime. -/
theorem pixel_written (A : DoubleOps) (kernel : conv A.D)
    (snorm : Int → Int → Nat → Nat → A.D) (opacity : A.D) {r width height sstride : Nat}
    (hf : Fits kernel r width height sstride)
    {x y : Nat} (hx : x < width + 2 * r) (hy : y < height + 2 * r) :
    ∃ v, run (make_shadow_ops A kernel snorm opacity width height sstride) (fun _ => none)
      (y * sstride + x) = some v := by
  by_cases hw : width < 2 * r
  · by_cases hh : height < 2 * r
    · exact ⟨_, degenerate_pixel_val A kernel snorm opacity hf hw hh hx hy⟩
    · have hh' : 2 * r ≤ height := by omega
      by_cases h1 : y < 2 * r
      · exact ⟨_, narrow_edge_val A kernel snorm opacity hf hw hh' hx h1 y (Or.inl rfl)⟩
      · by_cases h2 : y < height
        · exact ⟨_, narrow_band_val A kernel snorm opacity hf hw hh' hx ⟨by omega, h2⟩⟩
        · exact ⟨_, narrow_edge_val A kernel snorm opacity hf hw hh' hx
            (show height + 2 * r - 1 - y < 2 * r by omega) y (Or.inr (by omega))⟩
  · have hw' : 2 * r ≤ width := by omega
    by_cases hh : height < 2 * r
    · by_cases h1 : x < 2 * r
      · exact ⟨_, short_edge_val A kernel snorm opacity hf hw' hh h1 hy x (Or.inl rfl)⟩
      · by_cases h2 : x < width
        · exact ⟨_, short_band_val A kernel snorm opacity hf hw' hh ⟨by omega, h2⟩ hy⟩
        · exact ⟨_, short_edge_val A kernel snorm opacity hf hw' hh
            (show width + 2 * r - 1 - x < 2 * r by omega) hy x (Or.inr (by omega))⟩
    · have hh' : 2 * r ≤ height := by omega
      by_cases hx1 : x < 2 * r
      · by_cases hy1 : y < 2 * r
        · exact ⟨_, regular_corner_val A kernel snorm opacity hf hw' hh' hx1 hy1 x y
            (Or.inl rfl) (Or.inl rfl)⟩
        · by_cases hy2 : y < height
          · exact ⟨_, regular_lr_val A kernel snorm opacity hf hw' hh' hx1 ⟨by omega, hy2⟩ x
              (Or.inl rfl)⟩
          · exact ⟨_, regular_corner_val A kernel snorm opacity hf hw' hh' hx1
              (show height + 2 * r - 1 - y < 2 * r by omega) x y (Or.inl rfl)
              (Or.inr (by omega))⟩
      · by_cases hx2 : x < width
        · by_cases hy1 : y < 2 * r
          · exact ⟨_, regular_tb_val A kernel snorm opacity hf hw' hh' ⟨by omega, hx2⟩ hy1 y
              (Or.inl rfl)⟩
          · by_cases hy2 : y < height
            · exact ⟨_, regular_interior_val A kernel snorm opacity hf hw' hh' ⟨by omega, hx2⟩
                ⟨by omega, hy2⟩⟩
            · exact ⟨_, regular_tb_val A kernel snorm opacity hf hw' hh' ⟨by omega, hx2⟩
                (show height + 2 * r - 1 - y < 2 * r by omega) y (Or.inr (by omega))⟩
        · have hx3 : width + 2 * r - 1 - x < 2 * r := by omega
          by_cases hy1 : y < 2 * r
          · exact ⟨_, regular_corner_val A kernel snorm opacity hf hw' hh' hx3 hy1 x y
              (Or.inr (by omega)) (Or.inl rfl)⟩
          · by_cases hy2 : y < height
            · exact ⟨_, regular_lr_val A kernel snorm opacity hf hw' hh' hx3 ⟨by omega, hy2⟩ x
                (Or.inr (by omega))⟩
            · exact ⟨_, regular_corner_val A kernel snorm opacity hf hw' hh' hx3
                (show height + 2 * r - 1 - y < 2 * r by omega) x y (Or.inr (by omega))
                (Or.inr (by omega))⟩

/-! ## Accesses stay in bounds -/

theorem store_inBounds {d W H s : Nat} {a b : Int} (row col : Nat) (v : Nat)
    (ha : a = (row : Int)) (hb : b = (col : Int)) (hrow : row < H) (hcol : col < W)
    (hWs : W ≤ s) (hsz : H * s < 4294967296) :
    (MemOp.store (u32 (a * (s : Int) + b)) v).inBounds d W H s :=
  ⟨row, col, u32_row_col row col ha hb hrow (by omega) hsz, hrow, hcol⟩

theorem memset_inBounds {d W H s : Nat} {a b : Int} (row col n : Nat) {len : Nat} (v : Nat)
    (ha : a = (row : Int)) (hb : b = (col : Int)) (hlen : len = n) (hrow : row < H)
    (hfit : col + n ≤ W) (hWs : W ≤ s) (hsz : H * s < 4294967296) :
    (MemOp.memset (u32 (a * (s : Int) + b)) v len).inBounds d W H s := by
  subst hlen
  exact ⟨row, col, u32_row_col row col ha hb hrow (by omega) hsz, hrow, hfit⟩

/-- An index `y * d + x` with `x < d` and `y < d` is below `d * d`. -/
theorem index_lt_sq {d x y : Nat} (hx : x < d) (hy : y < d) : y * d + x < d * d := by
  have h : (y + 1) * d ≤ d * d := Nat.mul_le_mul_right d hy
  rw [Nat.add_mul] at h; omega

theorem degenerate_inBounds (A : DoubleOps) (snorm : Int → Int → Nat → Nat → A.D)
    {r width height s : Nat} (hs : width + 2 * r ≤ s)
    (hsz : (height + 2 * r) * s < 4294967296) {op : MemOp}
    (hop : op ∈ degenerate_ops A snorm (2 * r + 1) (width + 2 * r) (height + 2 * r) width
      height s) :
    op.inBounds (2 * r + 1) (width + 2 * r) (height + 2 * r) s := by
  simp only [degenerate_ops, List.mem_flatMap, mem_forRange, List.mem_singleton] at hop
  obtain ⟨y, hy, x, hx, rfl⟩ := hop
  exact store_inBounds y x _ rfl rfl hy.2 hx.2 hs hsz

theorem short_inBounds (A : DoubleOps) (snorm : Int → Int → Nat → Nat → A.D)
    {r width height s : Nat} (hW : width + 2 * r ≤ 65535) (hw : 2 * r ≤ width)
    (hs : width + 2 * r ≤ s) (hsz : (height + 2 * r) * s < 4294967296) {op : MemOp}
    (hop : op ∈ short_ops A snorm (2 * r + 1) r (width + 2 * r) (height + 2 * r) width
      height s) :
    op.inBounds (2 * r + 1) (width + 2 * r) (height + 2 * r) s := by
  simp only [short_ops, List.mem_append, List.mem_flatMap, mem_forRange, List.mem_cons,
    List.mem_singleton, List.not_mem_nil, or_false] at hop
  rcases hop with ⟨y, hy, x, hx, rfl | rfl⟩ | ⟨y, hy, rfl⟩
  · exact store_inBounds y x _ rfl rfl hy.2 (by omega) hs hsz
  · rw [offset_mirror_col (show x < width + 2 * r by omega)]
    exact store_inBounds y (width + 2 * r - 1 - x) _ rfl rfl hy.2 (by omega) hs hsz
  · exact memset_inBounds y (2 * r) (width - 2 * r) _ rfl (by omega) (usize_strip2 hW hw)
      hy.2 (by omega) hs hsz

theorem narrow_inBounds (A : DoubleOps) (snorm : Int → Int → Nat → Nat → A.D)
    {r width height s : Nat} (hh : 2 * r ≤ height)
    (hs : width + 2 * r ≤ s) (hsz : (height + 2 * r) * s < 4294967296) {op : MemOp}
    (hop : op ∈ narrow_ops A snorm (2 * r + 1) r (width + 2 * r) (height + 2 * r) width
      height s) :
    op.inBounds (2 * r + 1) (width + 2 * r) (height + 2 * r) s := by
  simp only [narrow_ops, List.mem_append, List.mem_flatMap, mem_forRange, List.mem_cons,
    List.mem_singleton, List.not_mem_nil, or_false] at hop
  rcases hop with ⟨y, hy, x, hx, rfl | rfl⟩ | ⟨x, hx, y, hy, rfl⟩
  · exact store_inBounds y x _ rfl rfl (by omega) hx.2 hs hsz
  · exact store_inBounds (height + 2 * r - 1 - y) x _ (by omega) rfl (by omega) hx.2 hs hsz
  · exact store_inBounds y x _ rfl rfl (by omega) hx.2 hs hsz

theorem regular_inBounds (A : DoubleOps) (rsum : Nat → A.D) (opacity : A.D)
    {r width height s : Nat} (hW : width + 2 * r ≤ 65535) (hw : 2 * r ≤ width)
    (hh : 2 * r ≤ height)
    (hs : width + 2 * r ≤ s) (hsz : (height + 2 * r) * s < 4294967296) {op : MemOp}
    (hop : op ∈ part3_ops A opacity r width height s ++
      (part1_ops A rsum opacity (2 * r + 1) r (width + 2 * r) (height + 2 * r) s
        ++ (part2_tb_ops A rsum opacity (2 * r + 1) r (height + 2 * r) width s
          ++ part2_lr_ops A rsum opacity (2 * r + 1) r (width + 2 * r) height s))) :
    op.inBounds (2 * r + 1) (width + 2 * r) (height + 2 * r) s := by
  rcases List.mem_append.mp hop with h0 | h123
  · simp only [part3_ops, List.mem_flatMap, mem_forRange, List.mem_singleton] at h0
    obtain ⟨y, hy, rfl⟩ := h0
    have e : u32 ((s : Int) * (y : Int)) = y * s := by
      have h := u32_natCast (offset_lt (show y < height + 2 * r by omega) (Nat.zero_le s) hsz)
      push_cast at h
      rw [Int.mul_comm]; simpa using h
    rw [e]
    exact ⟨y, r, rfl, by omega, by omega⟩
  · rcases List.mem_append.mp h123 with h1 | h23
    · simp only [part1_ops, List.mem_flatMap, mem_forRange, List.mem_cons, List.mem_singleton,
        List.not_mem_nil, or_false] at h1
      obtain ⟨y, hy, x, hx, h1⟩ := h1
      rw [u32_rsum_index (by omega) (by omega) (by omega)] at h1
      rcases h1 with rfl | rfl | rfl | rfl | rfl
      · exact index_lt_sq (by omega) (by omega)
      · exact store_inBounds y x _ rfl rfl (by omega) (by omega) hs hsz
      · exact store_inBounds (height + 2 * r - 1 - y) x _ (by omega) rfl (by omega) (by omega)
          hs hsz
      · exact store_inBounds (height + 2 * r - 1 - y) (width + 2 * r - 1 - x) _ (by omega)
          (by omega) (by omega) (by omega) hs hsz
      · exact store_inBounds y (width + 2 * r - 1 - x) _ rfl (by omega) (by omega) (by omega)
          hs hsz
    · rcases List.mem_append.mp h23 with h2 | h3
      · simp only [part2_tb_ops, List.mem_flatMap, mem_forRange, List.mem_cons,
          List.mem_singleton, List.not_mem_nil, or_false] at h2
        obtain ⟨y, hy, h2⟩ := h2
        rw [u32_tb_index (by omega) (by omega) (by omega)] at h2
        rcases h2 with rfl | rfl | rfl
        · show (2 * r + 1) * y + (2 * r + 1) - 1 < (2 * r + 1) * (2 * r + 1)
          have h := index_lt_sq (d := 2 * r + 1) (x := 2 * r) (y := y) (by omega) (by omega)
          rw [Nat.mul_comm y] at h
          omega
        · exact memset_inBounds y (2 * r) (width - 2 * r) _ rfl (by omega)
            (usize_strip hW hw) (by omega) (by omega) hs hsz
        · exact memset_inBounds (height + 2 * r - 1 - y) (2 * r) (width - 2 * r) _ (by omega)
            (by omega) (usize_strip hW hw) (by omega) (by omega) hs hsz
      · simp only [part2_lr_ops, List.mem_flatMap, mem_forRange, List.mem_cons,
          List.mem_singleton, List.not_mem_nil, or_false] at h3
        obtain ⟨x, hx, h3⟩ := h3
        rw [u32_lr_index (by omega) (by omega) (by omega)] at h3
        rcases h3 with rfl | ⟨y, hy, rfl | rfl⟩
        · show (2 * r + 1) * (2 * r + 1 - 1) + x < (2 * r + 1) * (2 * r + 1)
          have h := index_lt_sq (d := 2 * r + 1) (x := x) (y := 2 * r) (by omega) (by omega)
          rw [Nat.mul_comm (2 * r)] at h
          exact h
        · exact store_inBounds y x _ rfl rfl (by omega) (by omega) hs hsz
        · exact store_inBounds y (width + 2 * r - 1 - x) _ rfl (by omega) (by omega) (by omega)
            hs hsz

/-! ## Opacity outside the regular regime -/

/-- Outside the regular regime the operations do not mention `opacity`. -/
theorem ops_opacity_free (A : DoubleOps) (kernel : conv A.D)
    (snorm : Int → Int → Nat → Nat → A.D) (o1 o2 : A.D) (width height sstride : Nat)
    (h : width < radius kernel * 2 ∨ height < radius kernel * 2) :
    make_shadow_ops A kernel snorm o1 width height sstride =
      make_shadow_ops A kernel snorm o2 width height sstride := by
  unfold make_shadow_ops
  by_cases h1 : width < radius kernel * 2 ∧ height < radius kernel * 2
  · simp only [if_pos h1]
  · by_cases h2 : height < radius kernel * 2
    · simp only [if_neg h1, if_pos h2]
    · have h3 : width < radius kernel * 2 := by
        rcases h with h | h
        · exact h
        · exact absurd h h2
      simp only [if_neg h1, if_neg h2, if_pos h3]

theorem make_shadow_opacity_free (A : DoubleOps) (kernel : conv A.D)
    (snorm : Int → Int → Nat → Nat → A.D) (o1 o2 : A.D) (width height : Nat)
    (created : Option Nat)
    (h : width < radius kernel * 2 ∨ height < radius kernel * 2) :
    make_shadow A kernel snorm o1 width height created =
      make_shadow A kernel snorm o2 width height created := by
  cases created with
  | none => rfl
  | some sstride =>
    simp only [make_shadow, ops_opacity_free A kernel snorm o1 o2 width height sstride h]

/-! ## Resource accounting of `build_shadow` -/

theorem dropRes_fresh (k : Res → Bool) (id : Nat) (l : List Res) (n : Nat)
    (hl : ∀ res ∈ l, res.id ≤ n) (hid : n < id) : dropRes k id l = l := by
  apply List.filter_eq_self.mpr
  intro res hres
  have := hl res hres
  have hne : (res.id == id) = false := by
    apply beq_false_of_ne; omega
  simp [hne]

theorem dropRes_cons (k : Res → Bool) (id : Nat) (r : Res) (l : List Res) :
    dropRes k id (r :: l) =
      if k r = true ∧ r.id = id then dropRes k id l else r :: dropRes k id l := by
  unfold dropRes
  by_cases h : k r = true ∧ r.id = id
  · rw [if_pos h, List.filter_cons_of_neg]
    simp [h.1, h.2]
  · rw [if_neg h, List.filter_cons_of_pos]
    rw [not_and_or] at h
    rcases h with h | h
    · simp [h]
    · simp [h]

set_option maxHeartbeats 4000000 in
/-- All outcomes of `build_shadow` at once.  `ok` says that the image, both
pixmaps and both pictures were created. -/
theorem build_shadow_cases (A : DoubleOps) (st : XState) (d : Nat) (opacity : A.D)
    (width height : Nat) (kernel : conv A.D) (snorm : Int → Int → Nat → Nat → A.D)
    (created : Option Nat) (shadow_pixel : Nat) (hfresh : st.fresh) :
    (build_shadow A st d opacity width height kernel snorm created shadow_pixel).ret =
      (created.isSome && st.outcomes.getD 0 true && st.outcomes.getD 1 true &&
        st.outcomes.getD 2 true && st.outcomes.getD 3 true) ∧
    (build_shadow A st d opacity width height kernel snorm created shadow_pixel).st.images =
      st.images ∧
    ((build_shadow A st d opacity width height kernel snorm created shadow_pixel).ret = false →
      (build_shadow A st d opacity width height kernel snorm created shadow_pixel).st.live =
        st.live ∧
      (build_shadow A st d opacity width height kernel snorm created shadow_pixel).pixmap =
        none ∧
      (build_shadow A st d opacity width height kernel snorm created shadow_pixel).pict =
        none) ∧
    ((build_shadow A st d opacity width height kernel snorm created shadow_pixel).ret = true →
      (build_shadow A st d opacity width height kernel snorm created shadow_pixel).st.live =
        Res.picture (st.last_id + 4) .ARGB_32 (st.last_id + 2) ::
          Res.pixmap (st.last_id + 2) 32 (ssize kernel width) (ssize kernel height) ::
            st.live ∧
      (build_shadow A st d opacity width height kernel snorm created shadow_pixel).pixmap =
        some (st.last_id + 2) ∧
      (build_shadow A st d opacity width height kernel snorm created shadow_pixel).pict =
        some (st.last_id + 4)) := by
  obtain ⟨live, last_id, outcomes, requests, images⟩ := st
  cases created with
  | none => simp [build_shadow, make_shadow]
  | some s =>
    simp only [XState.fresh] at hfresh
    have f1 : ∀ k, dropRes k (last_id + 1) live = live :=
      fun k => dropRes_fresh k _ live last_id hfresh (by omega)
    have f2 : ∀ k, dropRes k (last_id + 1 + 1) live = live :=
      fun k => dropRes_fresh k _ live last_id hfresh (by omega)
    have f3 : ∀ k, dropRes k (last_id + 1 + 1 + 1) live = live :=
      fun k => dropRes_fresh k _ live last_id hfresh (by omega)
    have f4 : ∀ k, dropRes k (last_id + 1 + 1 + 1 + 1) live = live :=
      fun k => dropRes_fresh k _ live last_id hfresh (by omega)
    have f5 : ∀ k, dropRes k (last_id + 1 + 1 + 1 + 1 + 1) live = live :=
      fun k => dropRes_fresh k _ live last_id hfresh (by omega)
    rcases outcomes with _ | ⟨b1, _ | ⟨b2, _ | ⟨b3, _ | ⟨b4, _ | ⟨b5, rest⟩⟩⟩⟩⟩ <;>
    (try cases b1) <;> (try cases b2) <;> (try cases b3) <;> (try cases b4) <;>
    (try cases b5) <;>
      simp [build_shadow, make_shadow, x_create_pixmap, next_outcome, xcb_generate_id,
        x_create_picture_with_standard_and_pixmap, shadow_picture_err, xcb_free_pixmap,
        xcb_image_destroy, xcb_render_free_picture, xcb_free_gc, xcb_create_gc, xcb_image_put,
        xcb_render_composite, Res.isPixmap, Res.isPicture, Res.isGc, Res.id, dropRes_cons,
        f1, f2, f3, f4, f5]

set_option maxHeartbeats 4000000 in
/-- The requests `build_shadow` sends, latest first, as a function of the
outcomes of its allocations, once the mask image exists. -/
theorem build_shadow_requests (A : DoubleOps) (st : XState) (d : Nat) (opacity : A.D)
    (width height : Nat) (kernel : conv A.D) (snorm : Int → Int → Nat → Nat → A.D)
    (sstride : Nat) (shadow_pixel : Nat) :
    (build_shadow A st d opacity width height kernel snorm (some sstride) shadow_pixel).st.requests
      = (if st.outcomes.getD 0 true = true ∧ st.outcomes.getD 1 true = true then
          (if st.outcomes.getD 2 true = true ∧ st.outcomes.getD 3 true = true then
            [Req.free_picture (st.last_id + 3), Req.free_pixmap (st.last_id + 1),
              Req.free_gc (st.last_id + 5), Req.composite, Req.put_image, Req.create_gc]
          else
            (if st.outcomes.getD 3 true = true then [Req.free_picture (st.last_id + 4)]
              else []) ++
            (if st.outcomes.getD 2 true = true then [Req.free_picture (st.last_id + 3)]
              else []) ++
            [Req.free_pixmap (st.last_id + 2), Req.free_pixmap (st.last_id + 1)]) ++
          [Req.create_picture .ARGB_32, Req.create_picture .A_8]
        else
          (if st.outcomes.getD 1 true = true then [Req.free_pixmap (st.last_id + 2)] else []) ++
          (if st.outcomes.getD 0 true = true then [Req.free_pixmap (st.last_id + 1)] else []))
        ++ [Req.create_pixmap 32, Req.create_pixmap 8] ++ st.requests := by
  obtain ⟨live, last_id, outcomes, requests, images⟩ := st
  rcases outcomes with _ | ⟨b1, _ | ⟨b2, _ | ⟨b3, _ | ⟨b4, _ | ⟨b5, rest⟩⟩⟩⟩⟩ <;>
  (try cases b1) <;> (try cases b2) <;> (try cases b3) <;> (try cases b4) <;>
  (try cases b5) <;>
    simp [build_shadow, make_shadow, x_create_pixmap, next_outcome, xcb_generate_id,
      x_create_picture_with_standard_and_pixmap, shadow_picture_err, xcb_free_pixmap,
      xcb_image_destroy, xcb_render_free_picture, xcb_free_gc, xcb_create_gc, xcb_image_put,
      xcb_render_composite]

/-- All outcomes of `solid_picture` at once. -/
theorem solid_picture_cases (st : XState) (d : Nat) (argb : Bool) (hfresh : st.fresh) :
    ((solid_picture st d argb).1 = 0 ↔
      st.outcomes.getD 0 true = false ∨ st.outcomes.getD 1 true = false) ∧
    ((solid_picture st d argb).1 = 0 → (solid_picture st d argb).2.live = st.live) ∧
    (st.outcomes.getD 0 true = true → st.outcomes.getD 1 true = false →
      (solid_picture st d argb).2.requests =
        Req.free_pixmap (st.last_id + 1) ::
          Req.create_picture (if argb then .ARGB_32 else .A_8) ::
            Req.create_pixmap (if argb then 32 else 8) :: st.requests) ∧
    ((solid_picture st d argb).1 ≠ 0 →
      (solid_picture st d argb).1 = st.last_id + 2 ∧
      (solid_picture st d argb).2.live =
        Res.picture (st.last_id + 2) (if argb then .ARGB_32 else .A_8) (st.last_id + 1) ::
          st.live ∧
      (solid_picture st d argb).2.requests =
        Req.free_pixmap (st.last_id + 1) :: Req.fill_rectangles ::
          Req.create_picture (if argb then .ARGB_32 else .A_8) ::
            Req.create_pixmap (if argb then 32 else 8) :: st.requests) := by
  obtain ⟨live, last_id, outcomes, requests, images⟩ := st
  simp only [XState.fresh] at hfresh
  have f1 : ∀ k, dropRes k (last_id + 1) live = live :=
    fun k => dropRes_fresh k _ live last_id hfresh (by omega)
  rcases outcomes with _ | ⟨b1, _ | ⟨b2, rest⟩⟩ <;>
  (try cases b1) <;> (try cases b2) <;> cases argb <;>
    simp [solid_picture, x_create_pixmap, next_outcome, xcb_generate_id,
      x_create_picture_with_standard_and_pixmap, xcb_free_pixmap, xcb_render_fill_rectangles,
      Res.isPixmap, Res.id, dropRes_cons, f1]

/-! ## Clipped rectangle sums of a symmetric kernel -/

theorem sum_ite_lt (g : Nat → ℚ) {d n : Nat} (hn : n ≤ d) :
    ∑ i in Finset.range d, (if i < n then g i else 0) = ∑ i in Finset.range n, g i := by
  rw [← Finset.sum_filter]
  congr 1
  ext i
  simp only [Finset.mem_filter, Finset.mem_range]
  omega

theorem sum_ite_ge_reflect (g : Nat → ℚ) {d n : Nat} (hn : n < d)
    (sym : ∀ i, i < d → g (d - 1 - i) = g i) :
    ∑ i in Finset.range d, (if d - 1 - n ≤ i then g i else 0) =
      ∑ i in Finset.range (n + 1), g i := by
  rw [← Finset.sum_range_reflect, ← sum_ite_lt g (show n + 1 ≤ d by omega)]
  apply Finset.sum_congr rfl
  intro i hi
  have hi' : i < d := Finset.mem_range.mp hi
  by_cases h : i < n + 1
  · rw [if_pos h, if_pos (by omega), sym i hi']
  · rw [if_neg h, if_neg (by omega)]

/-- One axis of the clipped rectangle in the regular regime. -/
theorem axis_sum (g : Nat → ℚ) {r w x m : Nat} (hw : 2 * r ≤ w)
    (hm : (x < 2 * r ∧ m = x) ∨ (2 * r ≤ x ∧ x < w ∧ m = 2 * r) ∨
      (w ≤ x ∧ x < w + 2 * r ∧ m = w + 2 * r - 1 - x))
    (sym : ∀ i, i < 2 * r + 1 → g (2 * r + 1 - 1 - i) = g i) :
    ∑ i in Finset.range (2 * r + 1),
      (if 2 * (r : Int) + 1 - 1 - (x : Int) ≤ (i : Int) ∧
          (i : Int) < 2 * (r : Int) + 1 - 1 - (x : Int) + (w : Int) then g i else 0) =
      ∑ i in Finset.range (m + 1), g i := by
  rcases hm with ⟨h1, rfl⟩ | ⟨h1, h2, rfl⟩ | ⟨h1, h2, rfl⟩
  · rw [← sum_ite_ge_reflect g (show m < 2 * r + 1 by omega) sym]
    apply Finset.sum_congr rfl
    intro i hi
    have hi' : i < 2 * r + 1 := Finset.mem_range.mp hi
    by_cases h : 2 * r + 1 - 1 - m ≤ i
    · rw [if_pos h, if_pos (by omega)]
    · rw [if_neg h, if_neg (by omega)]
  · apply Finset.sum_congr rfl
    intro i hi
    have hi' : i < 2 * r + 1 := Finset.mem_range.mp hi
    rw [if_pos (by omega)]
  · rw [← sum_ite_lt g (show w + 2 * r - 1 - x + 1 ≤ 2 * r + 1 by omega)]
    apply Finset.sum_congr rfl
    intro i hi
    have hi' : i < 2 * r + 1 := Finset.mem_range.mp hi
    by_cases h : i < w + 2 * r - 1 - x + 1
    · rw [if_pos h, if_pos (by omega)]
    · rw [if_neg h, if_neg (by omega)]

/-- In the regular regime the clipped rectangle sum is a prefix sum. -/
theorem clipped_sum_eq_rsum (kernel : conv ℚ) {r w h x y mx my : Nat}
    (hk : ExactKernel kernel (2 * r + 1)) (hw : 2 * r ≤ w) (hh : 2 * r ≤ h)
    (hmx : (x < 2 * r ∧ mx = x) ∨ (2 * r ≤ x ∧ x < w ∧ mx = 2 * r) ∨
      (w ≤ x ∧ x < w + 2 * r ∧ mx = w + 2 * r - 1 - x))
    (hmy : (y < 2 * r ∧ my = y) ∨ (2 * r ≤ y ∧ y < h ∧ my = 2 * r) ∨
      (h ≤ y ∧ y < h + 2 * r ∧ my = h + 2 * r - 1 - y)) :
    spec_clipped_sum kernel (2 * r + 1) (2 * (r : Int) + 1 - 1 - (x : Int))
      (2 * (r : Int) + 1 - 1 - (y : Int)) w h = kernel.rsum (my * (2 * r + 1) + mx) := by
  have hmx' : mx < 2 * r + 1 := by omega
  have hmy' : my < 2 * r + 1 := by omega
  rw [hk.prefix_sums mx my hmx' hmy']
  unfold spec_clipped_sum
  have inner : ∀ j, j < 2 * r + 1 →
      ∑ i in Finset.range (2 * r + 1),
        (if 2 * (r : Int) + 1 - 1 - (x : Int) ≤ (i : Int) ∧
            (i : Int) < 2 * (r : Int) + 1 - 1 - (x : Int) + (w : Int) ∧
            2 * (r : Int) + 1 - 1 - (y : Int) ≤ (j : Int) ∧
            (j : Int) < 2 * (r : Int) + 1 - 1 - (y : Int) + (h : Int)
          then kernel.data (j * (2 * r + 1) + i) else 0) =
      if 2 * (r : Int) + 1 - 1 - (y : Int) ≤ (j : Int) ∧
          (j : Int) < 2 * (r : Int) + 1 - 1 - (y : Int) + (h : Int)
        then ∑ i in Finset.range (mx + 1), kernel.data (j * (2 * r + 1) + i) else 0 := by
    intro j hj
    by_cases hY : 2 * (r : Int) + 1 - 1 - (y : Int) ≤ (j : Int) ∧
        (j : Int) < 2 * (r : Int) + 1 - 1 - (y : Int) + (h : Int)
    · rw [if_pos hY, ← axis_sum (fun i => kernel.data (j * (2 * r + 1) + i)) hw hmx
        (fun i hi => hk.sym_col i j hi hj)]
      apply Finset.sum_congr rfl
      intro i _
      by_cases hX : 2 * (r : Int) + 1 - 1 - (x : Int) ≤ (i : Int) ∧
          (i : Int) < 2 * (r : Int) + 1 - 1 - (x : Int) + (w : Int)
      · rw [if_pos hX, if_pos ⟨hX.1, hX.2, hY.1, hY.2⟩]
      · rw [if_neg hX, if_neg (fun hc => hX ⟨hc.1, hc.2.1⟩)]
    · rw [if_neg hY]
      apply Finset.sum_eq_zero
      intro i _
      rw [if_neg (fun hc => hY ⟨hc.2.2.1, hc.2.2.2⟩)]
  rw [Finset.sum_congr rfl (fun j hj => inner j (Finset.mem_range.mp hj))]
  exact axis_sum (fun j => ∑ i in Finset.range (mx + 1), kernel.data (j * (2 * r + 1) + i)) hh hmy
    (fun j hj => Finset.sum_congr rfl (fun i hi =>
      hk.sym_row i j (by have := Finset.mem_range.mp hi; omega) hj))

/-! ## Exact arithmetic -/

/-- The truncating cast of the exact model, on a value between `n` and `n+1`. -/
theorem exact_toU8 {q : ℚ} {n : Nat} (h1 : (n : ℚ) ≤ q) (h2 : q < (n : ℚ) + 1) (h3 : n < 256) :
    exactOps.toU8 q = n := by
  have hf : ⌊q⌋ = (n : Int) := by
    rw [Int.floor_eq_iff]
    exact ⟨by exact_mod_cast h1, by exact_mod_cast h2⟩
  show (Int.toNat ⌊q⌋) % 256 = n
  rw [hf, Int.toNat_natCast]
  exact Nat.mod_eq_of_lt h3

theorem fits_tent3 : Fits tent3 1 2 2 4 :=
  ⟨by decide, by decide, by decide, by decide, by decide⟩

/-! ## Claims on `make_shadow` -/

/-- C1. Regular regime, corners: for a kernel of side `d = 2r+1`, any opacity
and `width, height ≥ 2r` (canvas `W = width+2r`, `H = height+2r` fitting 16
bits), and every `x, y < 2r`, the four pixels `(x, y)`, `(W-1-x, y)`,
`(x, H-1-y)`, `(W-1-x, H-1-y)` of the mask returned by `make_shadow` all equal
`(uint8_t)(rsum[y*d + x] * opacity * 255)`. -/
theorem C1_regular_corners (A : DoubleOps) (kernel : conv A.D)
    (snorm : Int → Int → Nat → Nat → A.D) (opacity : A.D) (r width height sstride : Nat)
    (hf : Fits kernel r width height sstride) (hw : 2 * r ≤ width) (hh : 2 * r ≤ height)
    (x y : Nat) (hx : x < 2 * r) (hy : y < 2 * r) :
    ∃ img, make_shadow A kernel snorm opacity width height (some sstride) = some img ∧
      img.pixel x y =
        some (A.toU8 (A.mul (A.mul (kernel.rsum (y * (2 * r + 1) + x)) opacity) A.c255)) ∧
      img.pixel (width + 2 * r - 1 - x) y =
        some (A.toU8 (A.mul (A.mul (kernel.rsum (y * (2 * r + 1) + x)) opacity) A.c255)) ∧
      img.pixel x (height + 2 * r - 1 - y) =
        some (A.toU8 (A.mul (A.mul (kernel.rsum (y * (2 * r + 1) + x)) opacity) A.c255)) ∧
      img.pixel (width + 2 * r - 1 - x) (height + 2 * r - 1 - y) =
        some (A.toU8 (A.mul (A.mul (kernel.rsum (y * (2 * r + 1) + x)) opacity) A.c255)) :=
  ⟨_, rfl,
    regular_corner_val A kernel snorm opacity hf hw hh hx hy _ _ (Or.inl rfl) (Or.inl rfl),
    regular_corner_val A kernel snorm opacity hf hw hh hx hy _ _ (Or.inr rfl) (Or.inl rfl),
    regular_corner_val A kernel snorm opacity hf hw hh hx hy _ _ (Or.inl rfl) (Or.inr rfl),
    regular_corner_val A kernel snorm opacity hf hw hh hx hy _ _ (Or.inr rfl) (Or.inr rfl)⟩

/-- Witness of C1: the 3x3 binomial kernel, a 2x2 window, opacity 1, stride 4,
corner offset `(1, 0)`. -/
theorem C1_regular_corners_witness :
    Fits tent3 1 2 2 4 ∧ 2 * 1 ≤ 2 ∧ 1 < 2 * 1 ∧ 0 < 2 * 1 ∧
    ∃ img, make_shadow exactOps tent3 snorm0 (1 : ℚ) 2 2 (some 4) = some img ∧
      img.pixel 1 0 =
        some (exactOps.toU8 (exactOps.mul (exactOps.mul (tent3.rsum (0 * (2 * 1 + 1) + 1))
          (1 : ℚ)) exactOps.c255)) ∧
      img.pixel (2 + 2 * 1 - 1 - 1) 0 =
        some (exactOps.toU8 (exactOps.mul (exactOps.mul (tent3.rsum (0 * (2 * 1 + 1) + 1))
          (1 : ℚ)) exactOps.c255)) ∧
      img.pixel 1 (2 + 2 * 1 - 1 - 0) =
        some (exactOps.toU8 (exactOps.mul (exactOps.mul (tent3.rsum (0 * (2 * 1 + 1) + 1))
          (1 : ℚ)) exactOps.c255)) ∧
      img.pixel (2 + 2 * 1 - 1 - 1) (2 + 2 * 1 - 1 - 0) =
        some (exactOps.toU8 (exactOps.mul (exactOps.mul (tent3.rsum (0 * (2 * 1 + 1) + 1))
          (1 : ℚ)) exactOps.c255)) :=
  ⟨⟨by decide, by decide, by decide, by decide, by decide⟩, by decide, by decide, by decide,
    C1_regular_corners exactOps tent3 snorm0 (1 : ℚ) 1 2 2 4
      ⟨by decide, by decide, by decide, by decide, by decide⟩ (by decide) (by decide) 1 0
      (by decide) (by decide)⟩

/-- C2, counterexample.  With the 3x3 binomial kernel (`r = 1`), a 2x2 window
and opacity 1, pixel `(1, 1)` lies in `[r, width+r) x [r, height+r)` but part 1
overwrites it with the corner value `(uint8_t)(rsum[4] * 1 * 255) = 143`,
not `(uint8_t)(255 * 1) = 255`. -/
theorem C2_counterexample :
    Fits tent3 1 2 2 4 ∧ 2 * 1 ≤ 2 ∧ (1 ≤ 1 ∧ 1 < 2 + 1) ∧
    ∃ img, make_shadow exactOps tent3 snorm0 (1 : ℚ) 2 2 (some 4) = some img ∧
      img.pixel 1 1 = some 143 ∧
      exactOps.toU8 (exactOps.mul exactOps.c255 (1 : ℚ)) = 255 ∧
      img.pixel 1 1 ≠ some (exactOps.toU8 (exactOps.mul exactOps.c255 (1 : ℚ))) := by
  have hv : exactOps.toU8 (exactOps.mul (exactOps.mul (tent3.rsum (1 * (2 * 1 + 1) + 1))
      (1 : ℚ)) exactOps.c255) = 143 :=
    exact_toU8 (by norm_num [tent3]) (by norm_num [tent3]) (by norm_num)
  have hc : exactOps.toU8 (exactOps.mul exactOps.c255 (1 : ℚ)) = 255 :=
    exact_toU8 (by norm_num) (by norm_num) (by norm_num)
  have hp := regular_corner_val exactOps tent3 snorm0 (1 : ℚ) fits_tent3 (by decide)
    (by decide) (x := 1) (y := 1) (by decide) (by decide) 1 1 (Or.inl rfl) (Or.inl rfl)
  rw [hv] at hp
  refine ⟨fits_tent3, by decide, by decide, _, rfl, hp, hc, ?_⟩
  rw [hc]
  show run _ _ (1 * 4 + 1) ≠ some 255
  rw [hp]
  decide

/-- C2, amended.  In the regular regime a pixel with `2r ≤ x < width` and
`2r ≤ y < height` equals `(uint8_t)(255 * opacity)`, whatever the mask size
and the kernel: two calls with the same opacity, whose kernels, radii, window
sizes and strides may differ, agree on every pixel that lies in that range for
both. -/
theorem C2_interior_amended (A : DoubleOps) (opacity : A.D)
    (k1 k2 : conv A.D) (sn1 sn2 : Int → Int → Nat → Nat → A.D)
    (r1 w1 h1 s1 r2 w2 h2 s2 : Nat)
    (hf1 : Fits k1 r1 w1 h1 s1) (hw1 : 2 * r1 ≤ w1) (hh1 : 2 * r1 ≤ h1)
    (hf2 : Fits k2 r2 w2 h2 s2) (hw2 : 2 * r2 ≤ w2) (hh2 : 2 * r2 ≤ h2)
    (x y : Nat) (hx1 : 2 * r1 ≤ x ∧ x < w1) (hy1 : 2 * r1 ≤ y ∧ y < h1)
    (hx2 : 2 * r2 ≤ x ∧ x < w2) (hy2 : 2 * r2 ≤ y ∧ y < h2) :
    ∃ img1 img2, make_shadow A k1 sn1 opacity w1 h1 (some s1) = some img1 ∧
      make_shadow A k2 sn2 opacity w2 h2 (some s2) = some img2 ∧
      img1.pixel x y = some (A.toU8 (A.mul A.c255 opacity)) ∧
      img2.pixel x y = some (A.toU8 (A.mul A.c255 opacity)) :=
  ⟨_, _, rfl, rfl, regular_interior_val A k1 sn1 opacity hf1 hw1 hh1 hx1 hy1,
    regular_interior_val A k2 sn2 opacity hf2 hw2 hh2 hx2 hy2⟩

/-- Witness of C2 (amended): the 3x3 binomial kernel with a 4x4 window and
stride 8, and with a 5x6 window and stride 7; pixel `(2, 3)`. -/
theorem C2_interior_amended_witness :
    Fits tent3 1 4 4 8 ∧ Fits tent3 1 5 6 7 ∧
    ∃ img1 img2, make_shadow exactOps tent3 snorm0 (1 / 2 : ℚ) 4 4 (some 8) = some img1 ∧
      make_shadow exactOps tent3 snorm0 (1 / 2 : ℚ) 5 6 (some 7) = some img2 ∧
      img1.pixel 2 3 = some (exactOps.toU8 (exactOps.mul exactOps.c255 (1 / 2 : ℚ))) ∧
      img2.pixel 2 3 = some (exactOps.toU8 (exactOps.mul exactOps.c255 (1 / 2 : ℚ))) :=
  ⟨⟨by decide, by decide, by decide, by decide, by decide⟩,
    ⟨by decide, by decide, by decide, by decide, by decide⟩,
    C2_interior_amended exactOps (1 / 2 : ℚ) tent3 tent3 snorm0 snorm0 1 4 4 8 1 5 6 7
      ⟨by decide, by decide, by decide, by decide, by decide⟩ (by decide) (by decide)
      ⟨by decide, by decide, by decide, by decide, by decide⟩ (by decide) (by decide)
      2 3 (by decide) (by decide) (by decide) (by decide)⟩

/-- C3. Scenario A and its general form.  General form: in the regular regime
every pixel with `2r ≤ x < width` and `2r ≤ y < height` equals
`(uint8_t)(255 * opacity)`, whatever `rsum` holds.  Scenario A (exact
arithmetic): for `d = 5`, a 100x100 window and opacity 1 the mask is 104x104,
every pixel with row and column in `5..98` equals 255, and pixel `(0, 0)`
equals `(uint8_t)(rsum[0] * 255)`. -/
theorem C3_scenario_A :
    (∀ (A : DoubleOps) (kernel : conv A.D) (snorm : Int → Int → Nat → Nat → A.D)
        (opacity : A.D) (r width height sstride : Nat),
      Fits kernel r width height sstride → 2 * r ≤ width → 2 * r ≤ height →
      ∃ img, make_shadow A kernel snorm opacity width height (some sstride) = some img ∧
        ∀ x y, 2 * r ≤ x → x < width → 2 * r ≤ y → y < height →
          img.pixel x y = some (A.toU8 (A.mul A.c255 opacity))) ∧
    (∀ (kernel : conv ℚ) (snorm : Int → Int → Nat → Nat → ℚ) (sstride : Nat),
      Fits kernel 2 100 100 sstride →
      ∃ img, make_shadow exactOps kernel snorm (1 : ℚ) 100 100 (some sstride) = some img ∧
        img.width = 104 ∧ img.height = 104 ∧
        (∀ x y, 5 ≤ x → x ≤ 98 → 5 ≤ y → y ≤ 98 → img.pixel x y = some 255) ∧
        img.pixel 0 0 = some (exactOps.toU8 (kernel.rsum 0 * 255))) := by
  constructor
  · intro A kernel snorm opacity r width height sstride hf hw hh
    exact ⟨_, rfl, fun x y h1 h2 h3 h4 =>
      regular_interior_val A kernel snorm opacity hf hw hh ⟨h1, h2⟩ ⟨h3, h4⟩⟩
  · intro kernel snorm sstride hf
    have hc : exactOps.toU8 (exactOps.mul exactOps.c255 (1 : ℚ)) = 255 :=
      exact_toU8 (by norm_num) (by norm_num) (by norm_num)
    refine ⟨_, rfl, ssize_eq hf.side hf.wfit, ssize_eq hf.side hf.hfit, ?_, ?_⟩
    · intro x y h1 h2 h3 h4
      have h := regular_interior_val exactOps kernel snorm (1 : ℚ) hf (by decide) (by decide)
        (x := x) (y := y) ⟨by omega, by omega⟩ ⟨by omega, by omega⟩
      rw [hc] at h
      exact h
    · have h := regular_corner_val exactOps kernel snorm (1 : ℚ) hf (by decide) (by decide)
        (x := 0) (y := 0) (by decide) (by decide) 0 0 (Or.inl rfl) (Or.inl rfl)
      have e : exactOps.mul (exactOps.mul (kernel.rsum (0 * (2 * 2 + 1) + 0)) (1 : ℚ))
          exactOps.c255 = kernel.rsum 0 * 255 := by
        show kernel.rsum (0 * (2 * 2 + 1) + 0) * 1 * 255 = kernel.rsum 0 * 255
        rw [mul_one]
      rw [e] at h
      exact h

/-- Witness of C3: scenario A on `flat5` with stride 104. -/
theorem C3_scenario_A_witness :
    Fits flat5 2 100 100 104 ∧
    ∃ img, make_shadow exactOps flat5 snorm0 (1 : ℚ) 100 100 (some 104) = some img ∧
      img.width = 104 ∧ img.height = 104 ∧
      (∀ x y, 5 ≤ x → x ≤ 98 → 5 ≤ y → y ≤ 98 → img.pixel x y = some 255) ∧
      img.pixel 0 0 = some (exactOps.toU8 (flat5.rsum 0 * 255)) :=
  ⟨⟨by decide, by decide, by decide, by decide, by decide⟩,
    C3_scenario_A.2 flat5 snorm0 104 ⟨by decide, by decide, by decide, by decide, by decide⟩⟩

/-- C4. Regular regime, edge strips: (i) for every row `y < 2r` and column
`2r ≤ x < width`, pixels `(x, y)` and `(x, H-1-y)` equal
`(uint8_t)(rsum[d*y + d-1] * opacity * 255)`; (ii) for every column `x < 2r`
and row `2r ≤ y < height`, pixels `(x, y)` and `(W-1-x, y)` equal
`(uint8_t)(rsum[d*(d-1) + x] * opacity * 255)`; here `d = 2r+1`,
`W = width+2r`, `H = height+2r`. -/
theorem C4_regular_strips (A : DoubleOps) (kernel : conv A.D)
    (snorm : Int → Int → Nat → Nat → A.D) (opacity : A.D) (r width height sstride : Nat)
    (hf : Fits kernel r width height sstride) (hw : 2 * r ≤ width) (hh : 2 * r ≤ height) :
    ∃ img, make_shadow A kernel snorm opacity width height (some sstride) = some img ∧
      (∀ x y, y < 2 * r → 2 * r ≤ x → x < width →
        img.pixel x y = some (A.toU8 (A.mul (A.mul
          (kernel.rsum ((2 * r + 1) * y + (2 * r + 1) - 1)) opacity) A.c255)) ∧
        img.pixel x (height + 2 * r - 1 - y) = some (A.toU8 (A.mul (A.mul
          (kernel.rsum ((2 * r + 1) * y + (2 * r + 1) - 1)) opacity) A.c255))) ∧
      (∀ x y, x < 2 * r → 2 * r ≤ y → y < height →
        img.pixel x y = some (A.toU8 (A.mul (A.mul
          (kernel.rsum ((2 * r + 1) * (2 * r + 1 - 1) + x)) opacity) A.c255)) ∧
        img.pixel (width + 2 * r - 1 - x) y = some (A.toU8 (A.mul (A.mul
          (kernel.rsum ((2 * r + 1) * (2 * r + 1 - 1) + x)) opacity) A.c255))) :=
  ⟨_, rfl,
    fun _ _ hy h1 h2 =>
      ⟨regular_tb_val A kernel snorm opacity hf hw hh ⟨h1, h2⟩ hy _ (Or.inl rfl),
       regular_tb_val A kernel snorm opacity hf hw hh ⟨h1, h2⟩ hy _ (Or.inr rfl)⟩,
    fun _ _ hx h1 h2 =>
      ⟨regular_lr_val A kernel snorm opacity hf hw hh hx ⟨h1, h2⟩ _ (Or.inl rfl),
       regular_lr_val A kernel snorm opacity hf hw hh hx ⟨h1, h2⟩ _ (Or.inr rfl)⟩⟩

/-- Witness of C4: the 3x3 binomial kernel, a 4x5 window, opacity 1/2,
stride 8. -/
theorem C4_regular_strips_witness :
    Fits tent3 1 4 5 8 ∧ 2 * 1 ≤ 4 ∧ 2 * 1 ≤ 5 ∧
    ∃ img, make_shadow exactOps tent3 snorm0 (1 / 2 : ℚ) 4 5 (some 8) = some img ∧
      (∀ x y, y < 2 * 1 → 2 * 1 ≤ x → x < 4 →
        img.pixel x y = some (exactOps.toU8 (exactOps.mul (exactOps.mul
          (tent3.rsum ((2 * 1 + 1) * y + (2 * 1 + 1) - 1)) (1 / 2 : ℚ)) exactOps.c255)) ∧
        img.pixel x (5 + 2 * 1 - 1 - y) = some (exactOps.toU8 (exactOps.mul (exactOps.mul
          (tent3.rsum ((2 * 1 + 1) * y + (2 * 1 + 1) - 1)) (1 / 2 : ℚ)) exactOps.c255))) ∧
      (∀ x y, x < 2 * 1 → 2 * 1 ≤ y → y < 5 →
        img.pixel x y = some (exactOps.toU8 (exactOps.mul (exactOps.mul
          (tent3.rsum ((2 * 1 + 1) * (2 * 1 + 1 - 1) + x)) (1 / 2 : ℚ)) exactOps.c255)) ∧
        img.pixel (4 + 2 * 1 - 1 - x) y = some (exactOps.toU8 (exactOps.mul (exactOps.mul
          (tent3.rsum ((2 * 1 + 1) * (2 * 1 + 1 - 1) + x)) (1 / 2 : ℚ)) exactOps.c255))) :=
  ⟨⟨by decide, by decide, by decide, by decide, by decide⟩, by decide, by decide,
    C4_regular_strips exactOps tent3 snorm0 (1 / 2 : ℚ) 1 4 5 8
      ⟨by decide, by decide, by decide, by decide, by decide⟩ (by decide) (by decide)⟩

/-- C5. Mask dimensions: for a kernel of odd positive side `d`, with
`r = d / 2` (floor), and `width + 2r ≤ 65535`, `height + 2r ≤ 65535`, the
size `swidth x sheight` that `make_shadow` requests is exactly
`(width + 2r) x (height + 2r)`, and so is the size of the image it returns,
whatever the regime. -/
theorem C5_mask_dimensions (A : DoubleOps) (kernel : conv A.D)
    (snorm : Int → Int → Nat → Nat → A.D) (opacity : A.D) (d width height sstride : Nat)
    (hd : kernel.w = (d : Int)) (hodd : d % 2 = 1)
    (hW : width + 2 * (d / 2) ≤ 65535) (hH : height + 2 * (d / 2) ≤ 65535) :
    radius kernel = d / 2 ∧
    ssize kernel width = width + 2 * (d / 2) ∧
    ssize kernel height = height + 2 * (d / 2) ∧
    ∃ img, make_shadow A kernel snorm opacity width height (some sstride) = some img ∧
      img.width = width + 2 * (d / 2) ∧ img.height = height + 2 * (d / 2) := by
  have hs : kernel.w = 2 * ((d / 2 : Nat) : Int) + 1 := by rw [hd]; omega
  exact ⟨radius_eq hs (by omega), ssize_eq hs hW, ssize_eq hs hH, _, rfl, ssize_eq hs hW,
    ssize_eq hs hH⟩

/-- Witness of C5: a 3x3 kernel and a 1x7 window (height-regular,
width-degenerate). -/
theorem C5_mask_dimensions_witness :
    tent3.w = ((3 : Nat) : Int) ∧ 3 % 2 = 1 ∧ 1 + 2 * (3 / 2) ≤ 65535 ∧
    7 + 2 * (3 / 2) ≤ 65535 ∧
    radius tent3 = 3 / 2 ∧
    ssize tent3 1 = 1 + 2 * (3 / 2) ∧
    ssize tent3 7 = 7 + 2 * (3 / 2) ∧
    ∃ img, make_shadow exactOps tent3 snorm0 (1 : ℚ) 1 7 (some 4) = some img ∧
      img.width = 1 + 2 * (3 / 2) ∧ img.height = 7 + 2 * (3 / 2) :=
  ⟨by decide, by decide, by decide, by decide,
    C5_mask_dimensions exactOps tent3 snorm0 (1 : ℚ) 3 1 7 4 (by decide) (by decide)
      (by decide) (by decide)⟩

/-- C8. Degenerate regime value: for a kernel of side `d = 2r+1` and
`width < 2r`, `height < 2r`, every pixel `(x, y)` of the canvas
`(width+2r) x (height+2r)` equals
`(uint8_t)(sum_kernel_normalized(kernel, d-1-x, d-1-y, width, height) * 255)`,
the rectangle's top-left corner `(d-1-x, d-1-y)` being a signed pair. -/
theorem C8_degenerate_value (A : DoubleOps) (kernel : conv A.D)
    (snorm : Int → Int → Nat → Nat → A.D) (opacity : A.D) (r width height sstride : Nat)
    (hf : Fits kernel r width height sstride) (hw : width < 2 * r) (hh : height < 2 * r)
    (x y : Nat) (hx : x < width + 2 * r) (hy : y < height + 2 * r) :
    ∃ img, make_shadow A kernel snorm opacity width height (some sstride) = some img ∧
      img.pixel x y = some (A.toU8 (A.mul
        (snorm (kernel.w - 1 - (x : Int)) (kernel.w - 1 - (y : Int)) width height) A.c255)) :=
  ⟨_, rfl, degenerate_pixel_val A kernel snorm opacity hf hw hh hx hy⟩

/-- Witness of C8: the 3x3 binomial kernel, a 1x1 window, pixel `(2, 1)`
(kernel coordinates `(0, 1)`). -/
theorem C8_degenerate_value_witness :
    Fits tent3 1 1 1 4 ∧ 1 < 2 * 1 ∧ 2 < 1 + 2 * 1 ∧
    ∃ img, make_shadow exactOps tent3 snorm0 (1 : ℚ) 1 1 (some 4) = some img ∧
      img.pixel 2 1 = some (exactOps.toU8 (exactOps.mul
        (snorm0 (tent3.w - 1 - ((2 : Nat) : Int)) (tent3.w - 1 - ((1 : Nat) : Int)) 1 1)
        exactOps.c255)) :=
  ⟨⟨by decide, by decide, by decide, by decide, by decide⟩, by decide, by decide,
    C8_degenerate_value exactOps tent3 snorm0 (1 : ℚ) 1 1 1 4
      ⟨by decide, by decide, by decide, by decide, by decide⟩ (by decide) (by decide) 2 1
      (by decide) (by decide)⟩

/-- C9. Degenerate regime and opacity: for `width < 2r` and `height < 2r` the
mask returned by `make_shadow` does not depend on opacity: for any two
opacities the two calls return the same image, every pixel `(x, y)` of the
canvas holds one and the same byte in both, and so is non-decreasing in
opacity. -/
theorem C9_degenerate_ignores_opacity (A : DoubleOps) (kernel : conv A.D)
    (snorm : Int → Int → Nat → Nat → A.D) (o1 o2 : A.D) (r width height sstride : Nat)
    (hf : Fits kernel r width height sstride) (hw : width < 2 * r) (hh : height < 2 * r)
    (x y : Nat) (hx : x < width + 2 * r) (hy : y < height + 2 * r) :
    make_shadow A kernel snorm o1 width height (some sstride) =
      make_shadow A kernel snorm o2 width height (some sstride) ∧
    ∃ img1 img2 v1 v2,
      make_shadow A kernel snorm o1 width height (some sstride) = some img1 ∧
      make_shadow A kernel snorm o2 width height (some sstride) = some img2 ∧
      img1.pixel x y = some v1 ∧ img2.pixel x y = some v2 ∧ v1 = v2 ∧ v1 ≤ v2 := by
  have hr : radius kernel = r := radius_eq hf.side (by have := hf.wfit; omega)
  refine ⟨make_shadow_opacity_free A kernel snorm o1 o2 width height _
    (Or.inl (by rw [hr]; omega)), _, _, _, _, rfl, rfl,
    degenerate_pixel_val A kernel snorm o1 hf hw hh hx hy,
    degenerate_pixel_val A kernel snorm o2 hf hw hh hx hy, rfl, Nat.le_refl _⟩

/-- Witness of C9: the 3x3 binomial kernel, a 1x1 window, opacities 0 and 1,
pixel `(0, 0)`. -/
theorem C9_degenerate_ignores_opacity_witness :
    Fits tent3 1 1 1 4 ∧ 1 < 2 * 1 ∧ 0 < 1 + 2 * 1 ∧
    (make_shadow exactOps tent3 snorm0 (0 : ℚ) 1 1 (some 4) =
      make_shadow exactOps tent3 snorm0 (1 : ℚ) 1 1 (some 4) ∧
    ∃ img1 img2 v1 v2,
      make_shadow exactOps tent3 snorm0 (0 : ℚ) 1 1 (some 4) = some img1 ∧
      make_shadow exactOps tent3 snorm0 (1 : ℚ) 1 1 (some 4) = some img2 ∧
      img1.pixel 0 0 = some v1 ∧ img2.pixel 0 0 = some v2 ∧ v1 = v2 ∧ v1 ≤ v2) :=
  ⟨⟨by decide, by decide, by decide, by decide, by decide⟩, by decide, by decide,
    C9_degenerate_ignores_opacity exactOps tent3 snorm0 (0 : ℚ) (1 : ℚ) 1 1 1 4
      ⟨by decide, by decide, by decide, by decide, by decide⟩ (by decide) (by decide) 0 0
      (by decide) (by decide)⟩

/-- C10, counterexample.  The claim asks for a kernel, a window size in the
single-axis-degenerate regime (exactly one of `width < 2r`, `height < 2r`) and
two opacities whose masks differ in some pixel.  There are none: in that
regime the code never reads `opacity`. -/
theorem C10_counterexample :
    ¬ ∃ (A : DoubleOps) (kernel : conv A.D) (snorm : Int → Int → Nat → Nat → A.D)
        (o1 o2 : A.D) (width height : Nat) (created : Option Nat)
        (img1 img2 : xcb_image_t) (x y : Nat),
      ((width < radius kernel * 2 ∧ ¬ height < radius kernel * 2) ∨
        (¬ width < radius kernel * 2 ∧ height < radius kernel * 2)) ∧
      make_shadow A kernel snorm o1 width height created = some img1 ∧
      make_shadow A kernel snorm o2 width height created = some img2 ∧
      img1.pixel x y ≠ img2.pixel x y := by
  rintro ⟨A, kernel, snorm, o1, o2, width, height, created, img1, img2, x, y, hreg, h1, h2, hne⟩
  have hor : width < radius kernel * 2 ∨ height < radius kernel * 2 := by
    rcases hreg with h | h
    · exact Or.inl h.1
    · exact Or.inr h.2
  rw [make_shadow_opacity_free A kernel snorm o1 o2 width height created hor, h2] at h1
  exact hne (by rw [Option.some.inj h1])

/-- C10, amended.  Every regime but the regular one ignores opacity: whenever
`width < 2r` or `height < 2r` (fully degenerate or single-axis-degenerate),
two calls that differ only in opacity return the same mask.  The regular
regime uses it: with the 3x3 binomial kernel and a 2x2 window, opacities 0 and
1 give different bytes at pixel `(0, 0)`. -/
theorem C10_only_regular_uses_opacity :
    (∀ (A : DoubleOps) (kernel : conv A.D) (snorm : Int → Int → Nat → Nat → A.D)
        (o1 o2 : A.D) (width height : Nat) (created : Option Nat),
      width < radius kernel * 2 ∨ height < radius kernel * 2 →
      make_shadow A kernel snorm o1 width height created =
        make_shadow A kernel snorm o2 width height created) ∧
    (Fits tent3 1 2 2 4 ∧ ¬ (2 < radius tent3 * 2 ∨ 2 < radius tent3 * 2) ∧
      (0 : ℚ) ≤ 0 ∧ (0 : ℚ) ≤ 1 ∧ (1 : ℚ) ≤ 1 ∧
      ∃ img1 img2,
        make_shadow exactOps tent3 snorm0 (0 : ℚ) 2 2 (some 4) = some img1 ∧
        make_shadow exactOps tent3 snorm0 (1 : ℚ) 2 2 (some 4) = some img2 ∧
        img1.pixel 0 0 = some 0 ∧ img2.pixel 0 0 = some 15 ∧
        img1.pixel 0 0 ≠ img2.pixel 0 0) := by
  refine ⟨make_shadow_opacity_free, fits_tent3, by decide, by norm_num, by norm_num,
    by norm_num, ?_⟩
  have hv0 : exactOps.toU8 (exactOps.mul (exactOps.mul (tent3.rsum (0 * (2 * 1 + 1) + 0))
      (0 : ℚ)) exactOps.c255) = 0 :=
    exact_toU8 (by norm_num [tent3]) (by norm_num [tent3]) (by norm_num)
  have hv1 : exactOps.toU8 (exactOps.mul (exactOps.mul (tent3.rsum (0 * (2 * 1 + 1) + 0))
      (1 : ℚ)) exactOps.c255) = 15 :=
    exact_toU8 (by norm_num [tent3]) (by norm_num [tent3]) (by norm_num)
  have hp0 := regular_corner_val exactOps tent3 snorm0 (0 : ℚ) fits_tent3 (by decide)
    (by decide) (x := 0) (y := 0) (by decide) (by decide) 0 0 (Or.inl rfl) (Or.inl rfl)
  have hp1 := regular_corner_val exactOps tent3 snorm0 (1 : ℚ) fits_tent3 (by decide)
    (by decide) (x := 0) (y := 0) (by decide) (by decide) 0 0 (Or.inl rfl) (Or.inl rfl)
  rw [hv0] at hp0
  rw [hv1] at hp1
  refine ⟨_, _, rfl, rfl, hp0, hp1, ?_⟩
  show run _ _ (0 * 4 + 0) ≠ run _ _ (0 * 4 + 0)
  rw [hp0, hp1]
  decide

/-! ## Claims on `build_shadow` -/

/-- C6. Rollback on failure: whenever `build_shadow` returns `false` (the mask
image, a pixmap or a picture could not be created), the live server-side
resources are those that were live at the call, the client-side image count
is back to its value at the call (the mask image is destroyed), and `*pixmap`
and `*pict` are not written.  In particular, when the alpha pixmap is created
and the ARGB pixmap is not, the alpha pixmap is freed: the call sends the two
creation requests and then the free request for the alpha pixmap, and no live
resource carries its XID. -/
theorem C6_rollback_on_failure (A : DoubleOps) (st : XState) (d : Nat) (opacity : A.D)
    (width height : Nat) (kernel : conv A.D) (snorm : Int → Int → Nat → Nat → A.D)
    (created : Option Nat) (shadow_pixel : Nat) (hfresh : st.fresh)
    (hret : (build_shadow A st d opacity width height kernel snorm created shadow_pixel).ret
      = false) :
    (build_shadow A st d opacity width height kernel snorm created shadow_pixel).st.live =
      st.live ∧
    (build_shadow A st d opacity width height kernel snorm created shadow_pixel).st.images =
      st.images ∧
    (build_shadow A st d opacity width height kernel snorm created shadow_pixel).pixmap =
      none ∧
    (build_shadow A st d opacity width height kernel snorm created shadow_pixel).pict =
      none ∧
    (∀ s rest, created = some s → st.outcomes = true :: false :: rest →
      (build_shadow A st d opacity width height kernel snorm created shadow_pixel).st.requests =
        Req.free_pixmap (st.last_id + 1) :: Req.create_pixmap 32 :: Req.create_pixmap 8 ::
          st.requests ∧
      ∀ res ∈
        (build_shadow A st d opacity width height kernel snorm created shadow_pixel).st.live,
        res.id ≠ st.last_id + 1) := by
  have h := build_shadow_cases A st d opacity width height kernel snorm created shadow_pixel
    hfresh
  obtain ⟨hl, hp, hq⟩ := h.2.2.1 hret
  refine ⟨hl, h.2.1, hp, hq, ?_⟩
  intro s rest hc ho
  refine ⟨?_, ?_⟩
  · subst hc
    obtain ⟨live, last_id, outcomes, requests, images⟩ := st
    simp only at ho
    subst ho
    simp [build_shadow, make_shadow, x_create_pixmap, next_outcome, xcb_generate_id,
      shadow_picture_err, xcb_free_pixmap, xcb_image_destroy]
  · intro res hres
    rw [hl] at hres
    have := hfresh res hres
    omega

/-- Witness of C6: the ARGB pixmap allocation fails. -/
theorem C6_rollback_on_failure_witness :
    st_argb_fail.fresh ∧
    (build_shadow exactOps st_argb_fail 1 (1 : ℚ) 2 2 tent3 snorm0 (some 4) 9).ret = false ∧
    (build_shadow exactOps st_argb_fail 1 (1 : ℚ) 2 2 tent3 snorm0 (some 4) 9).st.live =
      st_argb_fail.live ∧
    (build_shadow exactOps st_argb_fail 1 (1 : ℚ) 2 2 tent3 snorm0 (some 4) 9).st.images =
      st_argb_fail.images ∧
    (build_shadow exactOps st_argb_fail 1 (1 : ℚ) 2 2 tent3 snorm0 (some 4) 9).pixmap = none ∧
    (build_shadow exactOps st_argb_fail 1 (1 : ℚ) 2 2 tent3 snorm0 (some 4) 9).pict = none ∧
    (∀ s rest, some 4 = some s → st_argb_fail.outcomes = true :: false :: rest →
      (build_shadow exactOps st_argb_fail 1 (1 : ℚ) 2 2 tent3 snorm0 (some 4) 9).st.requests =
        Req.free_pixmap (st_argb_fail.last_id + 1) :: Req.create_pixmap 32 ::
          Req.create_pixmap 8 :: st_argb_fail.requests ∧
      ∀ res ∈ (build_shadow exactOps st_argb_fail 1 (1 : ℚ) 2 2 tent3 snorm0 (some 4) 9).st.live,
        res.id ≠ st_argb_fail.last_id + 1) :=
  ⟨by unfold XState.fresh; decide, by decide,
    C6_rollback_on_failure exactOps st_argb_fail 1 (1 : ℚ) 2 2 tent3 snorm0 (some 4) 9
      (by unfold XState.fresh; decide) (by decide)⟩

/-- C7. Success postcondition: `build_shadow` returns `true` exactly when the
mask image, both pixmaps and both pictures were created (the image allocation
and the four allocation requests, in program order, succeeded).  When it
returns `true`, `*pixmap` is the depth-32 pixmap and `*pict` the ARGB picture
on it, both created by this call (their XIDs are new), they are the only
resources the call adds to the live ones: the alpha pixmap, the alpha picture
and the graphics context are freed, and so is the client-side mask image. -/
theorem C7_success_postcondition (A : DoubleOps) (st : XState) (d : Nat) (opacity : A.D)
    (width height : Nat) (kernel : conv A.D) (snorm : Int → Int → Nat → Nat → A.D)
    (created : Option Nat) (shadow_pixel : Nat) (hfresh : st.fresh) :
    ((build_shadow A st d opacity width height kernel snorm created shadow_pixel).ret = true ↔
      created.isSome = true ∧ st.outcomes.getD 0 true = true ∧ st.outcomes.getD 1 true = true ∧
        st.outcomes.getD 2 true = true ∧ st.outcomes.getD 3 true = true) ∧
    ((build_shadow A st d opacity width height kernel snorm created shadow_pixel).ret = true →
      ∃ pm pc, st.last_id < pm ∧ st.last_id < pc ∧
        (build_shadow A st d opacity width height kernel snorm created shadow_pixel).pixmap =
          some pm ∧
        (build_shadow A st d opacity width height kernel snorm created shadow_pixel).pict =
          some pc ∧
        (build_shadow A st d opacity width height kernel snorm created shadow_pixel).st.live =
          Res.picture pc .ARGB_32 pm ::
            Res.pixmap pm 32 (ssize kernel width) (ssize kernel height) :: st.live ∧
        (build_shadow A st d opacity width height kernel snorm created shadow_pixel).st.images =
          st.images) := by
  have h := build_shadow_cases A st d opacity width height kernel snorm created shadow_pixel
    hfresh
  constructor
  · rw [h.1]
    simp only [Bool.and_eq_true]
    constructor
    · rintro ⟨⟨⟨⟨a, b⟩, c⟩, e⟩, f⟩
      exact ⟨a, b, c, e, f⟩
    · rintro ⟨a, b, c, e, f⟩
      exact ⟨⟨⟨⟨a, b⟩, c⟩, e⟩, f⟩
  · intro hret
    obtain ⟨hl, hp, hq⟩ := h.2.2.2 hret
    exact ⟨st.last_id + 2, st.last_id + 4, by omega, by omega, hp, hq, hl, h.2.1⟩

/-- Witness of C7: every allocation succeeds. -/
theorem C7_success_postcondition_witness :
    st_all_ok.fresh ∧
    (build_shadow exactOps st_all_ok 1 (1 : ℚ) 2 2 tent3 snorm0 (some 4) 9).ret = true ∧
    (build_shadow exactOps st_all_ok 1 (1 : ℚ) 2 2 tent3 snorm0 (some 4) 9).pixmap = some 9 ∧
    (build_shadow exactOps st_all_ok 1 (1 : ℚ) 2 2 tent3 snorm0 (some 4) 9).pict = some 11 ∧
    ((build_shadow exactOps st_all_ok 1 (1 : ℚ) 2 2 tent3 snorm0 (some 4) 9).ret = true ↔
      (some 4 : Option Nat).isSome = true ∧ st_all_ok.outcomes.getD 0 true = true ∧
        st_all_ok.outcomes.getD 1 true = true ∧ st_all_ok.outcomes.getD 2 true = true ∧
        st_all_ok.outcomes.getD 3 true = true) :=
  ⟨by unfold XState.fresh; decide, by decide, by decide, by decide,
    (C7_success_postcondition exactOps st_all_ok 1 (1 : ℚ) 2 2 tent3 snorm0 (some 4) 9
      (by unfold XState.fresh; decide)).1⟩

/-! ## Claims on the single-axis-degenerate regimes and on coverage -/

theorem fits_flat11 : Fits flat11 5 3 100 16 :=
  ⟨by decide, by decide, by decide, by decide, by decide⟩

/-- C11. Scenario B and its general form.  General form: in the
width-degenerate regime (`width < 2r ≤ height`) the mask is `width + 2r`
wide, and for every column `x < width + 2r` and every row `2r ≤ y < height`
pixel `(x, y)` equals
`(uint8_t)(sum_kernel_normalized(kernel, d-1-x, 0, width, d) * 255)`: one
value per column, in which neither the row nor the opacity occurs.  Scenario
B: for `width = 3`, `height = 100`, `r = 5` the mask is 13 wide and this holds
on columns `0..12`, the window-body columns `5..7` included, and rows
`10..99`.  On the uniform 11x11 kernel with its rectangle sum, opacity 1, the
window-body pixel `(5, 50)` is 69, not the regular-regime constant 255. -/
theorem C11_scenario_B :
    (∀ (A : DoubleOps) (kernel : conv A.D) (snorm : Int → Int → Nat → Nat → A.D)
        (opacity : A.D) (r width height sstride : Nat),
      Fits kernel r width height sstride → width < 2 * r → 2 * r ≤ height →
      ∃ img, make_shadow A kernel snorm opacity width height (some sstride) = some img ∧
        img.width = width + 2 * r ∧
        ∀ x y, x < width + 2 * r → 2 * r ≤ y → y < height →
          img.pixel x y = some (A.toU8 (A.mul
            (snorm (kernel.w - 1 - (x : Int)) 0 width (2 * r + 1)) A.c255))) ∧
    (∀ (A : DoubleOps) (kernel : conv A.D) (snorm : Int → Int → Nat → Nat → A.D)
        (opacity : A.D) (sstride : Nat),
      Fits kernel 5 3 100 sstride →
      ∃ img, make_shadow A kernel snorm opacity 3 100 (some sstride) = some img ∧
        img.width = 13 ∧
        ∀ x y, x ≤ 12 → 10 ≤ y → y ≤ 99 →
          img.pixel x y = some (A.toU8 (A.mul
            (snorm (kernel.w - 1 - (x : Int)) 0 3 11) A.c255))) ∧
    (∃ img, make_shadow exactOps flat11 (spec_clipped_sum flat11 11) (1 : ℚ) 3 100 (some 16) =
        some img ∧
      img.pixel 5 50 = some 69 ∧ exactOps.toU8 (exactOps.mul exactOps.c255 (1 : ℚ)) = 255) := by
  have general : ∀ (A : DoubleOps) (kernel : conv A.D) (snorm : Int → Int → Nat → Nat → A.D)
      (opacity : A.D) (r width height sstride : Nat),
      Fits kernel r width height sstride → width < 2 * r → 2 * r ≤ height →
      ∃ img, make_shadow A kernel snorm opacity width height (some sstride) = some img ∧
        img.width = width + 2 * r ∧
        ∀ x y, x < width + 2 * r → 2 * r ≤ y → y < height →
          img.pixel x y = some (A.toU8 (A.mul
            (snorm (kernel.w - 1 - (x : Int)) 0 width (2 * r + 1)) A.c255)) := by
    intro A kernel snorm opacity r width height sstride hf hw hh
    exact ⟨_, rfl, ssize_eq hf.side hf.wfit, fun x y hx h1 h2 =>
      narrow_band_val A kernel snorm opacity hf hw hh hx ⟨h1, h2⟩⟩
  refine ⟨general, ?_, ?_⟩
  · intro A kernel snorm opacity sstride hf
    obtain ⟨img, himg, hwd, hpix⟩ := general A kernel snorm opacity 5 3 100 sstride hf
      (by decide) (by decide)
    exact ⟨img, himg, hwd, fun x y hx h1 h2 => hpix x y (by omega) h1 (by omega)⟩
  · obtain ⟨img, himg, _, hpix⟩ := general exactOps flat11 (spec_clipped_sum flat11 11) (1 : ℚ)
      5 3 100 16 fits_flat11 (by decide) (by decide)
    have hp := hpix 5 50 (by decide) (by decide) (by decide)
    have hs : spec_clipped_sum flat11 11 (flat11.w - 1 - ((5 : Nat) : Int)) 0 3 (2 * 5 + 1) =
        3 / 11 := by
      simp [spec_clipped_sum, flat11, Finset.sum_range_succ]
      norm_num
    have hv : exactOps.toU8 (exactOps.mul (3 / 11 : ℚ) exactOps.c255) = 69 :=
      exact_toU8 (by norm_num) (by norm_num) (by norm_num)
    rw [hs, hv] at hp
    exact ⟨img, himg, hp, exact_toU8 (by norm_num) (by norm_num) (by norm_num)⟩

/-- Witness of C11: scenario B on the uniform 11x11 kernel, stride 16. -/
theorem C11_scenario_B_witness :
    Fits flat11 5 3 100 16 ∧
    ∃ img, make_shadow exactOps flat11 (spec_clipped_sum flat11 11) (1 : ℚ) 3 100 (some 16) =
        some img ∧
      img.width = 13 ∧
      ∀ x y, x ≤ 12 → 10 ≤ y → y ≤ 99 →
        img.pixel x y = some (exactOps.toU8 (exactOps.mul
          (spec_clipped_sum flat11 11 (flat11.w - 1 - (x : Int)) 0 3 11) exactOps.c255)) :=
  ⟨⟨by decide, by decide, by decide, by decide, by decide⟩,
    C11_scenario_B.2.1 exactOps flat11 (spec_clipped_sum flat11 11) (1 : ℚ) 16
      ⟨by decide, by decide, by decide, by decide, by decide⟩⟩

/-- C12. Mirror symmetry along the unconstrained axis, with `W = width + 2r`
and `H = height + 2r`: (i) when `height < 2r ≤ width`, pixel `(x, y)` equals
pixel `(W-1-x, y)`; (ii) when `width < 2r ≤ height`, pixel `(x, y)` equals
pixel `(x, H-1-y)`; for every pixel of the canvas, both pixels being written.
Nothing is assumed of the kernel or of `sum_kernel_normalized`. -/
theorem C12_single_axis_mirror (A : DoubleOps) (kernel : conv A.D)
    (snorm : Int → Int → Nat → Nat → A.D) (opacity : A.D) (r width height sstride : Nat)
    (hf : Fits kernel r width height sstride) :
    ∃ img, make_shadow A kernel snorm opacity width height (some sstride) = some img ∧
      (height < 2 * r → 2 * r ≤ width →
        ∀ x y, x < width + 2 * r → y < height + 2 * r →
          ∃ v, img.pixel x y = some v ∧ img.pixel (width + 2 * r - 1 - x) y = some v) ∧
      (width < 2 * r → 2 * r ≤ height →
        ∀ x y, x < width + 2 * r → y < height + 2 * r →
          ∃ v, img.pixel x y = some v ∧ img.pixel x (height + 2 * r - 1 - y) = some v) := by
  refine ⟨_, rfl, ?_, ?_⟩
  · intro hh hw x y hx hy
    by_cases h1 : x < 2 * r
    · exact ⟨_, short_edge_val A kernel snorm opacity hf hw hh h1 hy x (Or.inl rfl),
        short_edge_val A kernel snorm opacity hf hw hh h1 hy _ (Or.inr rfl)⟩
    · by_cases h2 : x < width
      · exact ⟨_, short_band_val A kernel snorm opacity hf hw hh ⟨by omega, h2⟩ hy,
          short_band_val A kernel snorm opacity hf hw hh
            (show 2 * r ≤ width + 2 * r - 1 - x ∧ width + 2 * r - 1 - x < width by omega) hy⟩
      · have h3 : width + 2 * r - 1 - x < 2 * r := by omega
        exact ⟨_, short_edge_val A kernel snorm opacity hf hw hh h3 hy x (Or.inr (by omega)),
          short_edge_val A kernel snorm opacity hf hw hh h3 hy _ (Or.inl rfl)⟩
  · intro hw hh x y hx hy
    by_cases h1 : y < 2 * r
    · exact ⟨_, narrow_edge_val A kernel snorm opacity hf hw hh hx h1 y (Or.inl rfl),
        narrow_edge_val A kernel snorm opacity hf hw hh hx h1 _ (Or.inr rfl)⟩
    · by_cases h2 : y < height
      · exact ⟨_, narrow_band_val A kernel snorm opacity hf hw hh hx ⟨by omega, h2⟩,
          narrow_band_val A kernel snorm opacity hf hw hh hx
            (show 2 * r ≤ height + 2 * r - 1 - y ∧ height + 2 * r - 1 - y < height by omega)⟩
      · have h3 : height + 2 * r - 1 - y < 2 * r := by omega
        exact ⟨_, narrow_edge_val A kernel snorm opacity hf hw hh hx h3 y (Or.inr (by omega)),
          narrow_edge_val A kernel snorm opacity hf hw hh hx h3 _ (Or.inl rfl)⟩

/-- Witness of C12: the 3x3 binomial kernel record with a rectangle-sum oracle
that is not mirror-symmetric, a 4x1 window (height-degenerate), stride 8. -/
theorem C12_single_axis_mirror_witness :
    Fits tent3 1 4 1 8 ∧
    ∃ img, make_shadow exactOps tent3 snorm_skew (1 : ℚ) 4 1 (some 8) = some img ∧
      (1 < 2 * 1 → 2 * 1 ≤ 4 →
        ∀ x y, x < 4 + 2 * 1 → y < 1 + 2 * 1 →
          ∃ v, img.pixel x y = some v ∧ img.pixel (4 + 2 * 1 - 1 - x) y = some v) ∧
      (4 < 2 * 1 → 2 * 1 ≤ 1 →
        ∀ x y, x < 4 + 2 * 1 → y < 1 + 2 * 1 →
          ∃ v, img.pixel x y = some v ∧ img.pixel x (1 + 2 * 1 - 1 - y) = some v) :=
  ⟨⟨by decide, by decide, by decide, by decide, by decide⟩,
    C12_single_axis_mirror exactOps tent3 snorm_skew (1 : ℚ) 1 4 1 8
      ⟨by decide, by decide, by decide, by decide, by decide⟩⟩

/-- C13. Determinism through full coverage: in every regime, each pixel
`(x, y)` of the canvas `W x H` is written before the image is returned, and
its byte is the same whatever the freshly allocated buffer held; so two calls
with the same arguments return the same mask. -/
theorem C13_full_coverage (A : DoubleOps) (kernel : conv A.D)
    (snorm : Int → Int → Nat → Nat → A.D) (opacity : A.D) (r width height sstride : Nat)
    (hf : Fits kernel r width height sstride)
    (x y : Nat) (hx : x < width + 2 * r) (hy : y < height + 2 * r) :
    ∃ img v, make_shadow A kernel snorm opacity width height (some sstride) = some img ∧
      img.pixel x y = some v ∧
      ∀ buf : Nat → Option Nat,
        run (make_shadow_ops A kernel snorm opacity width height sstride) buf
          (y * sstride + x) = some v := by
  obtain ⟨v, hv⟩ := pixel_written A kernel snorm opacity hf hx hy
  exact ⟨_, v, rfl, hv, run_indep _ _ _ hv⟩

/-- Witness of C13: the 3x3 binomial kernel, a 1x4 window (width-degenerate),
stride 4, pixel `(2, 5)`. -/
theorem C13_full_coverage_witness :
    Fits tent3 1 1 4 4 ∧ 2 < 1 + 2 * 1 ∧ 5 < 4 + 2 * 1 ∧
    ∃ img v, make_shadow exactOps tent3 snorm_skew (1 : ℚ) 1 4 (some 4) = some img ∧
      img.pixel 2 5 = some v ∧
      ∀ buf : Nat → Option Nat,
        run (make_shadow_ops exactOps tent3 snorm_skew (1 : ℚ) 1 4 4) buf (5 * 4 + 2) =
          some v :=
  ⟨⟨by decide, by decide, by decide, by decide, by decide⟩, by decide, by decide,
    C13_full_coverage exactOps tent3 snorm_skew (1 : ℚ) 1 1 4 4
      ⟨by decide, by decide, by decide, by decide, by decide⟩ 2 5 (by decide) (by decide)⟩

/-- C18. In-bounds access: for a kernel of side `d = 2r+1` whose `rsum` table
has `d * d` entries, any opacity and a canvas `W x H = (width+2r) x
(height+2r)` that fits 16 bits with a row stride of at least `W`, in every
regime each read of `rsum` uses an index below `d * d`, each single-byte write
targets a column below `W` of a row below `H`, and each fill starts in a row
below `H` at a column `c` with a length `n` such that `c + n ≤ W` (the length
`width - 2r` is only taken where it is non-negative). -/
theorem C18_in_bounds (A : DoubleOps) (kernel : conv A.D)
    (snorm : Int → Int → Nat → Nat → A.D) (opacity : A.D) (r width height sstride : Nat)
    (hf : Fits kernel r width height sstride) (op : MemOp)
    (hop : op ∈ make_shadow_ops A kernel snorm opacity width height sstride) :
    op.inBounds (2 * r + 1) (width + 2 * r) (height + 2 * r) sstride := by
  have hW := hf.wfit
  have hs := hf.stride_ge
  have hsz := hf.size_fit
  by_cases hw : width < 2 * r
  · by_cases hh : height < 2 * r
    · rw [ops_degenerate A kernel snorm opacity hf hw hh] at hop
      exact degenerate_inBounds A snorm hs hsz hop
    · rw [ops_narrow A kernel snorm opacity hf hw (by omega)] at hop
      exact narrow_inBounds A snorm (by omega) hs hsz hop
  · by_cases hh : height < 2 * r
    · rw [ops_short A kernel snorm opacity hf (by omega) hh] at hop
      exact short_inBounds A snorm hW (by omega) hs hsz hop
    · rw [ops_regular A kernel snorm opacity hf (by omega) (by omega)] at hop
      exact regular_inBounds A kernel.rsum opacity hW (by omega) (by omega) hs hsz hop

/-- Witness of C18: the first read of `rsum` in the regular regime on the 3x3
binomial kernel with a 2x2 window and stride 4. -/
theorem C18_in_bounds_witness :
    Fits tent3 1 2 2 4 ∧
    MemOp.load 0 ∈ make_shadow_ops exactOps tent3 snorm0 (1 : ℚ) 2 2 4 ∧
    (MemOp.load 0).inBounds (2 * 1 + 1) (2 + 2 * 1) (2 + 2 * 1) 4 := by
  have hmem : MemOp.load 0 ∈ make_shadow_ops exactOps tent3 snorm0 (1 : ℚ) 2 2 4 := by
    rw [ops_regular exactOps tent3 snorm0 (1 : ℚ) fits_tent3 (by decide) (by decide)]
    apply List.mem_append_right
    apply List.mem_append_left
    simp only [part1_ops, List.mem_flatMap, mem_forRange, List.mem_cons]
    exact ⟨0, ⟨Nat.le_refl 0, by decide⟩, 0, ⟨Nat.le_refl 0, by decide⟩, Or.inl (by decide)⟩
  exact ⟨⟨by decide, by decide, by decide, by decide, by decide⟩, hmem,
    C18_in_bounds exactOps tent3 snorm0 (1 : ℚ) 1 2 2 4
      ⟨by decide, by decide, by decide, by decide, by decide⟩ _ hmem⟩

/-! ## Claims on `solid_picture`, `default_backend_render_shadow` and the
order of requests in `build_shadow` -/

/-- C14, the code at two failing inputs.  (1) The tint pixmap cannot be
created: `solid_picture` returns `XCB_NONE`, yet `build_shadow` is run, the
ARGB pixmap it creates (XID 10) is handed to `bind_pixmap` and the result of
the bind is returned.  (2) `build_shadow` returns `false` (its alpha pixmap
cannot be created): `bind_pixmap` is still called, with `XCB_NONE`, and its
result is returned, which is not `NULL` for a backend that wraps whatever it
receives. -/
theorem C14_failure_still_binds :
    ((solid_picture st_first_fail 1 true).1 = 0 ∧
      ∀ bind_pixmap : Nat → Nat,
        (default_backend_render_shadow exactOps st_first_fail 1 bind_pixmap 2 2 tent3 snorm0
          (some 4) (1 : ℚ)).bound = 10 ∧
        (default_backend_render_shadow exactOps st_first_fail 1 bind_pixmap 2 2 tent3 snorm0
          (some 4) (1 : ℚ)).ret = bind_pixmap 10 ∧
        (default_backend_render_shadow exactOps st_first_fail 1 bind_pixmap 2 2 tent3 snorm0
          (some 4) (1 : ℚ)).st.live = [Res.pixmap 10 32 4 4, Res.pixmap 3 24 10 10]) ∧
    ((build_shadow exactOps (solid_picture st_picture_fail 1 true).2 1 (1 : ℚ) (u16 2) (u16 2)
        tent3 snorm0 (some 4) (solid_picture st_picture_fail 1 true).1).ret = false ∧
      (∀ bind_pixmap : Nat → Nat,
        (default_backend_render_shadow exactOps st_picture_fail 1 bind_pixmap 2 2 tent3 snorm0
          (some 4) (1 : ℚ)).bound = 0 ∧
        (default_backend_render_shadow exactOps st_picture_fail 1 bind_pixmap 2 2 tent3 snorm0
          (some 4) (1 : ℚ)).ret = bind_pixmap 0) ∧
      (default_backend_render_shadow exactOps st_picture_fail 1 bind_any 2 2 tent3 snorm0
        (some 4) (1 : ℚ)).ret ≠ 0) :=
  ⟨⟨by decide, fun _ => ⟨rfl, rfl, rfl⟩⟩, by decide, fun _ => ⟨rfl, rfl⟩, by decide⟩

/-- C15, the code at two failing inputs.  (1) Every allocation succeeds: when
`default_backend_render_shadow` returns, the tint picture that `solid_picture`
created (XID 9) is still live next to the bound ARGB pixmap, and the only
picture frees sent are those of the alpha picture and of the ARGB picture.
(2) `build_shadow` fails: the tint picture is still live as well. -/
theorem C15_tint_picture_leaks :
    ((solid_picture st_all_ok 1 true).1 = 9 ∧
      (default_backend_render_shadow exactOps st_all_ok 1 bind_any 2 2 tent3 snorm0 (some 4)
        (1 : ℚ)).st.live =
        [Res.pixmap 11 32 4 4, Res.picture 9 .ARGB_32 8, Res.pixmap 3 24 10 10] ∧
      Req.free_picture 9 ∉
        (default_backend_render_shadow exactOps st_all_ok 1 bind_any 2 2 tent3 snorm0 (some 4)
          (1 : ℚ)).st.requests) ∧
    ((solid_picture st_picture_fail 1 true).1 = 9 ∧
      (default_backend_render_shadow exactOps st_picture_fail 1 bind_any 2 2 tent3 snorm0
        (some 4) (1 : ℚ)).st.live = [Res.picture 9 .ARGB_32 8, Res.pixmap 3 24 10 10]) :=
  ⟨⟨by decide, by decide, by decide⟩, by decide, by decide⟩

/-- C16. Failure and leak freedom of `solid_picture`: it returns `XCB_NONE`
exactly when the pixmap or the picture cannot be created, and then leaves the
live resources as they were; when the pixmap is created and the picture is
not, the pixmap is freed before returning; when it succeeds, the pixmap it
created has been freed and the returned picture is the only resource of the
call that is still live. -/
theorem C16_solid_picture (st : XState) (d : Nat) (argb : Bool) (hfresh : st.fresh) :
    ((solid_picture st d argb).1 = 0 ↔
      st.outcomes.getD 0 true = false ∨ st.outcomes.getD 1 true = false) ∧
    ((solid_picture st d argb).1 = 0 → (solid_picture st d argb).2.live = st.live) ∧
    (st.outcomes.getD 0 true = true → st.outcomes.getD 1 true = false →
      (solid_picture st d argb).2.requests =
        Req.free_pixmap (st.last_id + 1) ::
          Req.create_picture (if argb then .ARGB_32 else .A_8) ::
            Req.create_pixmap (if argb then 32 else 8) :: st.requests) ∧
    ((solid_picture st d argb).1 ≠ 0 →
      st.last_id < (solid_picture st d argb).1 ∧
      (solid_picture st d argb).2.live =
        Res.picture (solid_picture st d argb).1 (if argb then .ARGB_32 else .A_8)
          (st.last_id + 1) :: st.live ∧
      Req.free_pixmap (st.last_id + 1) ∈ (solid_picture st d argb).2.requests) := by
  have h := solid_picture_cases st d argb hfresh
  refine ⟨h.1, h.2.1, h.2.2.1, ?_⟩
  intro hne
  obtain ⟨h1, h2, h3⟩ := h.2.2.2 hne
  refine ⟨by omega, ?_, ?_⟩
  · rw [h2, h1]
  · rw [h3]; exact List.mem_cons_self _ _

/-- Witness of C16: a connection on which every request succeeds. -/
theorem C16_solid_picture_witness :
    st_all_ok.fresh ∧ (solid_picture st_all_ok 1 true).1 = 9 ∧
    (solid_picture st_all_ok 1 true).2.live =
      [Res.picture 9 .ARGB_32 8, Res.pixmap 3 24 10 10] ∧
    ((solid_picture st_all_ok 1 true).1 = 0 ↔
      st_all_ok.outcomes.getD 0 true = false ∨ st_all_ok.outcomes.getD 1 true = false) :=
  ⟨by unfold XState.fresh; decide, by decide, by decide,
    (C16_solid_picture st_all_ok 1 true (by unfold XState.fresh; decide)).1⟩

/-- C17, counterexample.  When the alpha pixmap allocation fails,
`build_shadow` returns `false` but has requested the ARGB pixmap; when the
alpha picture cannot be created, it returns `false` but has requested the ARGB
picture. -/
theorem C17_counterexample :
    ((x_create_pixmap st_first_fail 8 1 4 4).1 = 0 ∧
      (build_shadow exactOps st_first_fail 1 (1 : ℚ) 2 2 tent3 snorm0 (some 4) 9).ret = false ∧
      (build_shadow exactOps st_first_fail 1 (1 : ℚ) 2 2 tent3 snorm0 (some 4) 9).st.requests =
        [Req.free_pixmap 9, Req.create_pixmap 32, Req.create_pixmap 8]) ∧
    ((build_shadow exactOps st_picture_fail 1 (1 : ℚ) 2 2 tent3 snorm0 (some 4) 9).ret = false ∧
      (build_shadow exactOps st_picture_fail 1 (1 : ℚ) 2 2 tent3 snorm0 (some 4) 9).st.requests =
        [Req.free_picture 11, Req.free_pixmap 9, Req.free_pixmap 8,
          Req.create_picture .ARGB_32, Req.create_picture .A_8,
          Req.create_pixmap 32, Req.create_pixmap 8]) :=
  ⟨⟨by decide, by decide, by decide⟩, by decide, by decide⟩

/-- C17, amended.  `build_shadow` checks its allocations in pairs.  Once the
mask image exists it requests the alpha pixmap and the ARGB pixmap, then
checks both; if either failed it frees the one that exists and returns
`false`, no picture being requested.  Otherwise it requests the alpha picture
and the ARGB picture, then checks both; if either failed it frees both pixmaps
and the picture that exists and returns `false`, no graphics context being
created and nothing uploaded or composited.  The requests sent, latest first,
are given for every sequence of outcomes. -/
theorem C17_pairwise_checks (A : DoubleOps) (st : XState) (d : Nat) (opacity : A.D)
    (width height : Nat) (kernel : conv A.D) (snorm : Int → Int → Nat → Nat → A.D)
    (sstride : Nat) (shadow_pixel : Nat) (hfresh : st.fresh) :
    (build_shadow A st d opacity width height kernel snorm (some sstride) shadow_pixel).ret =
      (st.outcomes.getD 0 true && st.outcomes.getD 1 true && st.outcomes.getD 2 true &&
        st.outcomes.getD 3 true) ∧
    (build_shadow A st d opacity width height kernel snorm (some sstride) shadow_pixel).st.requests
      = (if st.outcomes.getD 0 true = true ∧ st.outcomes.getD 1 true = true then
          (if st.outcomes.getD 2 true = true ∧ st.outcomes.getD 3 true = true then
            [Req.free_picture (st.last_id + 3), Req.free_pixmap (st.last_id + 1),
              Req.free_gc (st.last_id + 5), Req.composite, Req.put_image, Req.create_gc]
          else
            (if st.outcomes.getD 3 true = true then [Req.free_picture (st.last_id + 4)]
              else []) ++
            (if st.outcomes.getD 2 true = true then [Req.free_picture (st.last_id + 3)]
              else []) ++
            [Req.free_pixmap (st.last_id + 2), Req.free_pixmap (st.last_id + 1)]) ++
          [Req.create_picture .ARGB_32, Req.create_picture .A_8]
        else
          (if st.outcomes.getD 1 true = true then [Req.free_pixmap (st.last_id + 2)] else []) ++
          (if st.outcomes.getD 0 true = true then [Req.free_pixmap (st.last_id + 1)] else []))
        ++ [Req.create_pixmap 32, Req.create_pixmap 8] ++ st.requests := by
  refine ⟨?_, build_shadow_requests A st d opacity width height kernel snorm sstride
    shadow_pixel⟩
  rw [(build_shadow_cases A st d opacity width height kernel snorm (some sstride) shadow_pixel
    hfresh).1]
  rfl

/-- Witness of C17 (amended): the alpha pixmap allocation fails. -/
theorem C17_pairwise_checks_witness :
    st_first_fail.fresh ∧
    (build_shadow exactOps st_first_fail 1 (1 : ℚ) 2 2 tent3 snorm0 (some 4) 9).ret =
      (st_first_fail.outcomes.getD 0 true && st_first_fail.outcomes.getD 1 true &&
        st_first_fail.outcomes.getD 2 true && st_first_fail.outcomes.getD 3 true) :=
  ⟨by unfold XState.fresh; decide,
    (C17_pairwise_checks exactOps st_first_fail 1 (1 : ℚ) 2 2 tent3 snorm0 4 9
      (by unfold XState.fresh; decide)).1⟩

/-- C19, the code at a failing input.  `width = 65534` passes
`assert(width < UINT16_MAX)` and survives the cast to `uint16_t`, but with a
kernel of side 3 (`r = 1`) `width + 2r = 65536` and the 16-bit `swidth` that
`make_shadow` computes is 0; likewise for the height. -/
theorem C19_canvas_size_wraps :
    65534 < 65535 ∧ u16 65534 = 65534 ∧ radius tent3 = 1 ∧
    65534 + 2 * radius tent3 = 65536 ∧
    ssize tent3 (u16 65534) = 0 ∧
    ∃ img, make_shadow exactOps tent3 snorm0 (1 : ℚ) (u16 65534) (u16 65534) (some 4) =
        some img ∧ img.width = 0 ∧ img.height = 0 :=
  ⟨by decide, by decide, by decide, by decide, by decide, _, rfl, by decide, by decide⟩

/-! ## The region decomposition against direct clipped convolution -/

theorem exactKernel_tent3 : ExactKernel tent3 3 where
  total := by simp [tent3, Finset.sum_range_succ]; norm_num
  sym_col := by
    intro i j hi hj
    interval_cases i <;> interval_cases j <;> simp [tent3]
  sym_row := by
    intro i j hi hj
    interval_cases i <;> interval_cases j <;> simp [tent3]
  prefix_sums := by
    intro x y hx hy
    interval_cases x <;> interval_cases y <;> simp [tent3, Finset.sum_range_succ] <;> norm_num

/-- C20. The region decomposition agrees with direct clipped convolution, in
exact arithmetic: for a kernel of side `d = 2r+1` whose weights sum to 1 and
are symmetric under `i → d-1-i` and `j → d-1-j`, with `rsum` their exact
prefix sums, and for `width, height ≥ 2r`, every pixel `(x, y)` of the
regular-regime mask equals `truncate(255 * opacity * S(x, y))`, `S(x, y)`
being the sum of the weights over the kernel cells of the rectangle with
top-left corner `(d-1-x, d-1-y)` and size `width x height`.  Neither the sign
of the weights nor the range of the opacity is used. -/
theorem C20_regular_is_clipped_convolution (kernel : conv ℚ)
    (snorm : Int → Int → Nat → Nat → ℚ) (opacity : ℚ) (r width height sstride : Nat)
    (hf : Fits kernel r width height sstride) (hk : ExactKernel kernel (2 * r + 1))
    (hw : 2 * r ≤ width) (hh : 2 * r ≤ height)
    (x y : Nat) (hx : x < width + 2 * r) (hy : y < height + 2 * r) :
    ∃ img, make_shadow exactOps kernel snorm opacity width height (some sstride) = some img ∧
      img.pixel x y = some (exactOps.toU8 (255 * opacity *
        spec_clipped_sum kernel (2 * r + 1) (kernel.w - 1 - (x : Int)) (kernel.w - 1 - (y : Int))
          width height)) := by
  refine ⟨_, rfl, ?_⟩
  show run (make_shadow_ops exactOps kernel snorm opacity width height sstride) (fun _ => none)
    (y * sstride + x) = _
  rw [hf.side]
  -- a pixel that holds the scaled prefix sum `rsum[my*d + mx]`
  have key : ∀ mx my idx : Nat, idx = my * (2 * r + 1) + mx →
      ((x < 2 * r ∧ mx = x) ∨ (2 * r ≤ x ∧ x < width ∧ mx = 2 * r) ∨
        (width ≤ x ∧ x < width + 2 * r ∧ mx = width + 2 * r - 1 - x)) →
      ((y < 2 * r ∧ my = y) ∨ (2 * r ≤ y ∧ y < height ∧ my = 2 * r) ∨
        (height ≤ y ∧ y < height + 2 * r ∧ my = height + 2 * r - 1 - y)) →
      run (make_shadow_ops exactOps kernel snorm opacity width height sstride) (fun _ => none)
          (y * sstride + x) =
        some (exactOps.toU8 (exactOps.mul (exactOps.mul (kernel.rsum idx) opacity)
          exactOps.c255)) →
      run (make_shadow_ops exactOps kernel snorm opacity width height sstride) (fun _ => none)
          (y * sstride + x) =
        some (exactOps.toU8 (255 * opacity *
          spec_clipped_sum kernel (2 * r + 1) (2 * (r : Int) + 1 - 1 - (x : Int))
            (2 * (r : Int) + 1 - 1 - (y : Int)) width height)) := by
    intro mx my idx hidx hmx hmy hrun
    rw [clipped_sum_eq_rsum kernel hk hw hh hmx hmy, ← hidx, hrun]
    have e : exactOps.mul (exactOps.mul (kernel.rsum idx) opacity) exactOps.c255 =
        255 * opacity * kernel.rsum idx := by
      show kernel.rsum idx * opacity * 255 = 255 * opacity * kernel.rsum idx
      ring
    rw [e]
  by_cases hx1 : x < 2 * r
  · by_cases hy1 : y < 2 * r
    · exact key x y _ rfl (Or.inl ⟨hx1, rfl⟩) (Or.inl ⟨hy1, rfl⟩)
        (regular_corner_val exactOps kernel snorm opacity hf hw hh hx1 hy1 x y (Or.inl rfl)
          (Or.inl rfl))
    · by_cases hy2 : y < height
      · exact key x (2 * r) _ (by simp [Nat.mul_comm]) (Or.inl ⟨hx1, rfl⟩)
          (Or.inr (Or.inl ⟨by omega, hy2, rfl⟩))
          (regular_lr_val exactOps kernel snorm opacity hf hw hh hx1 ⟨by omega, hy2⟩ x
            (Or.inl rfl))
      · exact key x (height + 2 * r - 1 - y) _ rfl (Or.inl ⟨hx1, rfl⟩)
          (Or.inr (Or.inr ⟨by omega, hy, rfl⟩))
          (regular_corner_val exactOps kernel snorm opacity hf hw hh hx1
            (show height + 2 * r - 1 - y < 2 * r by omega) x y (Or.inl rfl)
            (Or.inr (by omega)))
  · by_cases hx2 : x < width
    · by_cases hy1 : y < 2 * r
      · exact key (2 * r) y _ (by rw [Nat.mul_comm]; omega)
          (Or.inr (Or.inl ⟨by omega, hx2, rfl⟩)) (Or.inl ⟨hy1, rfl⟩)
          (regular_tb_val exactOps kernel snorm opacity hf hw hh ⟨by omega, hx2⟩ hy1 y
            (Or.inl rfl))
      · by_cases hy2 : y < height
        · have hS := clipped_sum_eq_rsum kernel hk hw hh (x := x) (y := y)
            (Or.inr (Or.inl ⟨by omega, hx2, rfl⟩)) (Or.inr (Or.inl ⟨by omega, hy2, rfl⟩))
          have hone : kernel.rsum (2 * r * (2 * r + 1) + 2 * r) = 1 := by
            rw [hk.prefix_sums (2 * r) (2 * r) (by omega) (by omega)]
            exact hk.total
          rw [hS, hone,
            regular_interior_val exactOps kernel snorm opacity hf hw hh ⟨by omega, hx2⟩
              ⟨by omega, hy2⟩]
          have e : exactOps.mul exactOps.c255 opacity = 255 * opacity * 1 := by
            show (255 : ℚ) * opacity = 255 * opacity * 1
            ring
          rw [e]
        · exact key (2 * r) (height + 2 * r - 1 - y) _ (by rw [Nat.mul_comm]; omega)
            (Or.inr (Or.inl ⟨by omega, hx2, rfl⟩)) (Or.inr (Or.inr ⟨by omega, hy, rfl⟩))
            (regular_tb_val exactOps kernel snorm opacity hf hw hh ⟨by omega, hx2⟩
              (show height + 2 * r - 1 - y < 2 * r by omega) y (Or.inr (by omega)))
    · have hx3 : width + 2 * r - 1 - x < 2 * r := by omega
      by_cases hy1 : y < 2 * r
      · exact key (width + 2 * r - 1 - x) y _ rfl (Or.inr (Or.inr ⟨by omega, hx, rfl⟩))
          (Or.inl ⟨hy1, rfl⟩)
          (regular_corner_val exactOps kernel snorm opacity hf hw hh hx3 hy1 x y
            (Or.inr (by omega)) (Or.inl rfl))
      · by_cases hy2 : y < height
        · exact key (width + 2 * r - 1 - x) (2 * r) _ (by simp [Nat.mul_comm])
            (Or.inr (Or.inr ⟨by omega, hx, rfl⟩)) (Or.inr (Or.inl ⟨by omega, hy2, rfl⟩))
            (regular_lr_val exactOps kernel snorm opacity hf hw hh hx3 ⟨by omega, hy2⟩ x
              (Or.inr (by omega)))
        · exact key (width + 2 * r - 1 - x) (height + 2 * r - 1 - y) _ rfl
            (Or.inr (Or.inr ⟨by omega, hx, rfl⟩)) (Or.inr (Or.inr ⟨by omega, hy, rfl⟩))
            (regular_corner_val exactOps kernel snorm opacity hf hw hh hx3
              (show height + 2 * r - 1 - y < 2 * r by omega) x y (Or.inr (by omega))
              (Or.inr (by omega)))

/-- Witness of C20: the 3x3 binomial kernel, a 4x5 window, opacity 1/2,
stride 8, pixel `(3, 1)` of the top strip. -/
theorem C20_regular_is_clipped_convolution_witness :
    Fits tent3 1 4 5 8 ∧ ExactKernel tent3 (2 * 1 + 1) ∧ 2 * 1 ≤ 4 ∧ 2 * 1 ≤ 5 ∧
    3 < 4 + 2 * 1 ∧ 1 < 5 + 2 * 1 ∧
    ∃ img, make_shadow exactOps tent3 snorm0 (1 / 2 : ℚ) 4 5 (some 8) = some img ∧
      img.pixel 3 1 = some (exactOps.toU8 (255 * (1 / 2 : ℚ) *
        spec_clipped_sum tent3 (2 * 1 + 1) (tent3.w - 1 - ((3 : Nat) : Int))
          (tent3.w - 1 - ((1 : Nat) : Int)) 4 5)) :=
  ⟨⟨by decide, by decide, by decide, by decide, by decide⟩, exactKernel_tent3, by decide,
    by decide, by decide, by decide,
    C20_regular_is_clipped_convolution tent3 snorm0 (1 / 2 : ℚ) 1 4 5 8
      ⟨by decide, by decide, by decide, by decide, by decide⟩ exactKernel_tent3 (by decide)
      (by decide) 3 1 (by decide) (by decide)⟩

end Compton
